import Mathlib

/-!
Verification of behavioral claims about the AWS Toolkit IDE extension
(dynamic resources, IoT explorer commands, IoT service client).

JavaScript strings are modelled as lists of UTF-16 code units (`List Nat`)
where character-level fidelity matters (the JSON formatter), and as Lean
`String`s elsewhere.  Fallible async calls are modelled with `Except`;
the IDE window, telemetry sink and AWS SDK are modelled as oracles passed
in explicitly, with the calls the code makes recorded in traces.
-/

namespace AwsToolkit

/-! ## JSON code-unit model

`JSON.parse` / `JSON.stringify` (ECMA-262 sections 25.5.1 and 25.5.2) are
embedded over lists of UTF-16 code units.  Numbers are kept as their
source numerals (validated against the JSON number grammar) rather than
converted to binary64 floats; this is the one deliberate deviation from
ECMA-262, which canonicalises numerals through a double round-trip. -/

def isWsUnit (u : Nat) : Bool :=
  u == 0x20 || u == 0x09 || u == 0x0A || u == 0x0D

def isDigitUnit (u : Nat) : Bool :=
  0x30 ≤ u && u ≤ 0x39

def isOneNineUnit (u : Nat) : Bool :=
  0x31 ≤ u && u ≤ 0x39

/-- Units that can occur in a JSON number token: digits, `+`, `-`, `.`, `e`, `E`. -/
def isNumUnit (u : Nat) : Bool :=
  isDigitUnit u || u == 0x2B || u == 0x2D || u == 0x2E || u == 0x65 || u == 0x45

def isHighSurrogate (u : Nat) : Bool :=
  0xD800 ≤ u && u ≤ 0xDBFF

def isLowSurrogate (u : Nat) : Bool :=
  0xDC00 ≤ u && u ≤ 0xDFFF

/-- Validates the exponent suffix of a JSON number token (or its absence). -/
def validExpPart (l : List Nat) : Bool :=
  match l with
  | [] => true
  | e :: r =>
    if e == 0x65 || e == 0x45 then
      let r1 := if r.head? == some 0x2B || r.head? == some 0x2D then r.tail else r
      !r1.isEmpty && r1.all isDigitUnit
    else false

/-- Validates the fraction-and-exponent suffix of a JSON number token. -/
def validFracPart (l : List Nat) : Bool :=
  match l with
  | 0x2E :: r =>
    match r with
    | d :: _ => isDigitUnit d && validExpPart (r.dropWhile isDigitUnit)
    | [] => false
  | _ => validExpPart l

/-- The JSON number grammar: `-? (0 | [1-9][0-9]*) frac? exp?`. -/
def validNumber (l : List Nat) : Bool :=
  let l1 := if l.head? == some 0x2D then l.tail else l
  match l1 with
  | [] => false
  | u :: r =>
    if u == 0x30 then validFracPart r
    else if isOneNineUnit u then validFracPart (r.dropWhile isDigitUnit)
    else false

/-- A JSON value.  `num` keeps the numeral token verbatim; `str` holds
decoded UTF-16 code units; `obj` holds fields in property order. -/
inductive JsonValue where
  | null : JsonValue
  | bool (b : Bool) : JsonValue
  | num (lit : List Nat) : JsonValue
  | str (units : List Nat) : JsonValue
  | arr (elems : List JsonValue) : JsonValue
  | obj (fields : List (List Nat × JsonValue)) : JsonValue

/-- Lowercase hex digit for a value below 16 (ECMA-262 UnicodeEscape). -/
def hexUnit (n : Nat) : Nat :=
  if n < 10 then 0x30 + n else 0x57 + n

/-- The four hex digits of a `\uXXXX` escape. -/
def hex4 (u : Nat) : List Nat :=
  [hexUnit (u / 4096 % 16), hexUnit (u / 256 % 16), hexUnit (u / 16 % 16), hexUnit (u % 16)]

/-- Body of ECMA-262 QuoteJSONString, fuelled so the recursion is
structural (every step consumes at least one unit, so `l.length` fuel is
always enough): escapes quotes, backslashes, control characters and
unpaired surrogates; emits paired surrogates verbatim. -/
def quoteBodyF : Nat → List Nat → List Nat
  | 0, _ => []
  | fuel + 1, l =>
    match l with
    | [] => []
    | u :: rest =>
      if u == 0x22 then 0x5C :: 0x22 :: quoteBodyF fuel rest
      else if u == 0x5C then 0x5C :: 0x5C :: quoteBodyF fuel rest
      else if u == 0x08 then 0x5C :: 0x62 :: quoteBodyF fuel rest
      else if u == 0x0C then 0x5C :: 0x66 :: quoteBodyF fuel rest
      else if u == 0x0A then 0x5C :: 0x6E :: quoteBodyF fuel rest
      else if u == 0x0D then 0x5C :: 0x72 :: quoteBodyF fuel rest
      else if u == 0x09 then 0x5C :: 0x74 :: quoteBodyF fuel rest
      else if u < 0x20 then 0x5C :: 0x75 :: (hex4 u ++ quoteBodyF fuel rest)
      else if isHighSurrogate u then
        match rest with
        | v :: rest2 =>
          if isLowSurrogate v then u :: v :: quoteBodyF fuel rest2
          else 0x5C :: 0x75 :: (hex4 u ++ quoteBodyF fuel (v :: rest2))
        | [] => 0x5C :: 0x75 :: hex4 u
      else if isLowSurrogate u then 0x5C :: 0x75 :: (hex4 u ++ quoteBodyF fuel rest)
      else u :: quoteBodyF fuel rest

/-- The quoted-string body with just enough fuel. -/
def quoteBody (l : List Nat) : List Nat :=
  quoteBodyF l.length l

/-- ECMA-262 QuoteJSONString: the escaped body surrounded by quotes. -/
def quoteStr (l : List Nat) : List Nat :=
  0x22 :: (quoteBody l ++ [0x22])

/-- Numeric value of a hex digit unit, if it is one. -/
def hexUnitVal (u : Nat) : Option Nat :=
  if 0x30 ≤ u && u ≤ 0x39 then some (u - 0x30)
  else if 0x61 ≤ u && u ≤ 0x66 then some (u - 0x57)
  else if 0x41 ≤ u && u ≤ 0x46 then some (u - 0x37)
  else none

/-- Parses a JSON string body after the opening quote, fuelled so the
recursion is structural (every step consumes at least one unit); returns
the decoded units and the input following the closing quote. -/
def parseStrF : Nat → List Nat → Option (List Nat × List Nat)
  | 0, _ => none
  | fuel + 1, l =>
    match l with
    | [] => none
    | u :: rest =>
      if u == 0x22 then some ([], rest)
      else if u == 0x5C then
        match rest with
        | [] => none
        | e :: rest2 =>
          if e == 0x22 then (parseStrF fuel rest2).map (fun p => (0x22 :: p.1, p.2))
          else if e == 0x5C then (parseStrF fuel rest2).map (fun p => (0x5C :: p.1, p.2))
          else if e == 0x2F then (parseStrF fuel rest2).map (fun p => (0x2F :: p.1, p.2))
          else if e == 0x62 then (parseStrF fuel rest2).map (fun p => (0x08 :: p.1, p.2))
          else if e == 0x66 then (parseStrF fuel rest2).map (fun p => (0x0C :: p.1, p.2))
          else if e == 0x6E then (parseStrF fuel rest2).map (fun p => (0x0A :: p.1, p.2))
          else if e == 0x72 then (parseStrF fuel rest2).map (fun p => (0x0D :: p.1, p.2))
          else if e == 0x74 then (parseStrF fuel rest2).map (fun p => (0x09 :: p.1, p.2))
          else if e == 0x75 then
            match rest2 with
            | a :: b :: c :: d :: rest3 =>
              match hexUnitVal a, hexUnitVal b, hexUnitVal c, hexUnitVal d with
              | some va, some vb, some vc, some vd =>
                (parseStrF fuel rest3).map
                  (fun p => ((va * 4096 + vb * 256 + vc * 16 + vd) :: p.1, p.2))
              | _, _, _, _ => none
            | _ => none
          else none
      else if u < 0x20 then none
      else (parseStrF fuel rest).map (fun p => (u :: p.1, p.2))

/-- The string-body parser with just enough fuel. -/
def parseStr (l : List Nat) : Option (List Nat × List Nat) :=
  parseStrF l.length l

/-- `n` space units. -/
def nSpaces (n : Nat) : List Nat :=
  List.replicate n 0x20

/-- Whitespace inserted after an opening bracket and after each comma when
serializing with a non-empty gap (ECMA-262 SerializeJSONObject/Array). -/
def gapLead (gap indent2 : Nat) : List Nat :=
  if gap == 0 then [] else 0x0A :: nSpaces indent2

/-- Whitespace inserted before a closing bracket when serializing with a
non-empty gap. -/
def gapClose (gap indent : Nat) : List Nat :=
  if gap == 0 then [] else 0x0A :: nSpaces indent

mutual

/-- ECMA-262 SerializeJSONProperty specialized to a gap of `gap` spaces and
a current indentation of `indent` spaces.  An object member is its quoted
key, a colon, a space when the gap is non-empty, then the value. -/
def printVal (gap indent : Nat) : JsonValue → List Nat
  | JsonValue.null => [0x6E, 0x75, 0x6C, 0x6C]
  | JsonValue.bool true => [0x74, 0x72, 0x75, 0x65]
  | JsonValue.bool false => [0x66, 0x61, 0x6C, 0x73, 0x65]
  | JsonValue.num lit => lit
  | JsonValue.str s => quoteStr s
  | JsonValue.arr [] => [0x5B, 0x5D]
  | JsonValue.arr (x :: xs) =>
    0x5B :: (gapLead gap (indent + gap) ++ printVal gap (indent + gap) x ++
      printRest gap (indent + gap) xs ++ gapClose gap indent ++ [0x5D])
  | JsonValue.obj [] => [0x7B, 0x7D]
  | JsonValue.obj ((k, v) :: fs) =>
    0x7B :: (gapLead gap (indent + gap) ++
      (quoteStr k ++ 0x3A :: ((if gap == 0 then [] else [0x20]) ++
        printVal gap (indent + gap) v)) ++
      printFields gap (indent + gap) fs ++ gapClose gap indent ++ [0x7D])

/-- The remaining array elements, each preceded by a comma and the gap lead. -/
def printRest (gap indent2 : Nat) : List JsonValue → List Nat
  | [] => []
  | x :: xs => 0x2C :: (gapLead gap indent2 ++ printVal gap indent2 x ++ printRest gap indent2 xs)

/-- The remaining object members, each preceded by a comma and the gap lead. -/
def printFields (gap indent2 : Nat) : List (List Nat × JsonValue) → List Nat
  | [] => []
  | (k, v) :: fs =>
    0x2C :: (gapLead gap indent2 ++
      (quoteStr k ++ 0x3A :: ((if gap == 0 then [] else [0x20]) ++ printVal gap indent2 v)) ++
      printFields gap indent2 fs)

end

/-- Skips JSON whitespace. -/
def skipWs (l : List Nat) : List Nat :=
  l.dropWhile isWsUnit

/-- Is there already a member with this key? -/
def hasKey (k : List Nat) : List (List Nat × JsonValue) → Bool
  | [] => false
  | (k', _) :: fs => k' == k || hasKey k fs

/-- Overwrites the value stored at key `k`, keeping the member's position. -/
def setKey (k : List Nat) (v : JsonValue) : List (List Nat × JsonValue) → List (List Nat × JsonValue)
  | [] => []
  | (k', v') :: fs => if k' == k then (k', v) :: fs else (k', v') :: setKey k v fs

/-- Defining one parsed member on the object built so far: a repeated name
overwrites the value in place, a fresh name is appended (JS property
definition order). -/
def addField (fs : List (List Nat × JsonValue)) (kv : List Nat × JsonValue) :
    List (List Nat × JsonValue) :=
  if hasKey kv.1 fs then setKey kv.1 kv.2 fs else fs ++ [kv]

/-- Assembles the members of a parsed object in JS property order. -/
def buildObj (ps : List (List Nat × JsonValue)) : List (List Nat × JsonValue) :=
  ps.foldl addField []

mutual

/-- Recursive-descent JSON parser (the grammar of ECMA-404 as enforced by
`JSON.parse`), fuelled to make termination structural.  Returns the value
and the unconsumed input. -/
def parseVal : Nat → List Nat → Option (JsonValue × List Nat)
  | 0, _ => none
  | fuel + 1, s =>
    match skipWs s with
    | [] => none
    | u :: rest =>
      if u == 0x7B then parseObj fuel rest
      else if u == 0x5B then parseArr fuel rest
      else if u == 0x22 then
        match parseStr rest with
        | some (t, r) => some (JsonValue.str t, r)
        | none => none
      else if u == 0x74 then
        match rest with
        | 0x72 :: 0x75 :: 0x65 :: r => some (JsonValue.bool true, r)
        | _ => none
      else if u == 0x66 then
        match rest with
        | 0x61 :: 0x6C :: 0x73 :: 0x65 :: r => some (JsonValue.bool false, r)
        | _ => none
      else if u == 0x6E then
        match rest with
        | 0x75 :: 0x6C :: 0x6C :: r => some (JsonValue.null, r)
        | _ => none
      else if u == 0x2D || isDigitUnit u then
        let tok := List.takeWhile isNumUnit (u :: rest)
        if validNumber tok then some (JsonValue.num tok, List.dropWhile isNumUnit (u :: rest))
        else none
      else none

/-- Parses the remainder of an array after the opening bracket. -/
def parseArr : Nat → List Nat → Option (JsonValue × List Nat)
  | 0, _ => none
  | fuel + 1, s =>
    let s1 := skipWs s
    if s1.head? == some 0x5D then some (JsonValue.arr [], s1.tail)
    else
      match parseElems fuel s with
      | some (vs, r) => some (JsonValue.arr vs, r)
      | none => none

/-- Parses one or more comma-separated array elements and the closing bracket. -/
def parseElems : Nat → List Nat → Option (List JsonValue × List Nat)
  | 0, _ => none
  | fuel + 1, s =>
    match parseVal fuel s with
    | none => none
    | some (v, r) =>
      let r1 := skipWs r
      if r1.head? == some 0x2C then
        match parseElems fuel r1.tail with
        | some (vs, r3) => some (v :: vs, r3)
        | none => none
      else if r1.head? == some 0x5D then some ([v], r1.tail)
      else none

/-- Parses the remainder of an object after the opening brace. -/
def parseObj : Nat → List Nat → Option (JsonValue × List Nat)
  | 0, _ => none
  | fuel + 1, s =>
    let s1 := skipWs s
    if s1.head? == some 0x7D then some (JsonValue.obj [], s1.tail)
    else
      match parseFields fuel s with
      | some (ps, r) => some (JsonValue.obj (buildObj ps), r)
      | none => none

/-- Parses one or more comma-separated object members (in textual order,
duplicates included) and the closing brace. -/
def parseFields : Nat → List Nat → Option (List (List Nat × JsonValue) × List Nat)
  | 0, _ => none
  | fuel + 1, s =>
    let s1 := skipWs s
    if s1.head? == some 0x22 then
      match parseStr s1.tail with
      | none => none
      | some (k, r2) =>
        let r3 := skipWs r2
        if r3.head? == some 0x3A then
          match parseVal fuel r3.tail with
          | none => none
          | some (v, r4) =>
            let r5 := skipWs r4
            if r5.head? == some 0x2C then
              match parseFields fuel r5.tail with
              | some (fs, r6) => some ((k, v) :: fs, r6)
              | none => none
            else if r5.head? == some 0x7D then some ([(k, v)], r5.tail)
            else none
        else none
    else none

end

/-- `JSON.parse` on a whole text: leading and trailing whitespace allowed,
nothing else may follow the value.  `none` models a thrown SyntaxError.
The fuel covers any run of the descent: at most three frames are pushed
per unit of input consumed (value, bracket, element-list). -/
def jsonParse (s : List Nat) : Option JsonValue :=
  match parseVal (3 * s.length + 3) s with
  | some (v, rest) => if (skipWs rest).isEmpty then some v else none
  | none => none

/-- `JSON.stringify(v, undefined, space)` with a numeric `space`: ECMA-262
clamps the gap to at most ten spaces. -/
def jsonStringify (v : JsonValue) (space : Nat) : List Nat :=
  printVal (min space 10) 0 v

/-- No key occurs twice among an object's members. -/
def noDupKeys : List (List Nat × JsonValue) → Bool
  | [] => true
  | (k, _) :: fs => !hasKey k fs && noDupKeys fs

mutual

/-- The shape invariant every value produced by `parseVal` satisfies:
number tokens are lexable and valid, object keys are unique. -/
def wfJson : JsonValue → Bool
  | JsonValue.null => true
  | JsonValue.bool _ => true
  | JsonValue.str _ => true
  | JsonValue.num lit =>
    validNumber lit && lit.all isNumUnit &&
      (match lit.head? with
       | some u => u == 0x2D || isDigitUnit u
       | none => false)
  | JsonValue.arr xs => wfElems xs
  | JsonValue.obj fs => noDupKeys fs && wfFields fs

def wfElems : List JsonValue → Bool
  | [] => true
  | x :: xs => wfJson x && wfElems xs

def wfFields : List (List Nat × JsonValue) → Bool
  | [] => true
  | (_, v) :: fs => wfJson v && wfFields fs

end

mutual

/-- Fuel needed by `parseVal` to read this value back. -/
def fsize : JsonValue → Nat
  | JsonValue.arr xs => 2 + felems xs
  | JsonValue.obj fs => 2 + ffields fs
  | _ => 1

def felems : List JsonValue → Nat
  | [] => 0
  | x :: xs => 1 + fsize x + felems xs

def ffields : List (List Nat × JsonValue) → Nat
  | [] => 0
  | (_, v) :: fs => 1 + fsize v + ffields fs

end

/-- A number token must not be followed by another number unit, or the
lexer would swallow it; any other value may be followed by anything. -/
def numGuard (v : JsonValue) (rest : List Nat) : Bool :=
  match v with
  | JsonValue.num _ =>
    match rest.head? with
    | some u => !isNumUnit u
    | none => true
  | _ => true

/-- `policyFormatter(rawPolicyContent, tabSize)` from the IoT policy-version
editor: `JSON.stringify(JSON.parse(rawPolicyContent), undefined, tabSize)`.
`none` models the SyntaxError thrown on invalid JSON. -/
def policyFormatter (rawPolicyContent : List Nat) (tabSize : Nat) : Option (List Nat) :=
  (jsonParse rawPolicyContent).map (fun v => jsonStringify v tabSize)

/-! ## The certificate ARN pattern

`CERT_ARN_PATTERN = /arn:aws:iot:\S+?:\d+:cert\/(\w+)/` applied with
`String.match`: an unanchored search whose group 1 is returned.  Characters
are Lean `Char`s; `\s` is modelled on its ASCII part, which covers ARN
material. -/

def isJsSpace (c : Char) : Bool :=
  c == ' ' || c == '\t' || c == '\n' || c == '\r' || c == '\x0B' || c == '\x0C'

/-- `\w`: ASCII letters, digits and underscore. -/
def isWordChar (c : Char) : Bool :=
  c.isAlpha || c.isDigit || c == '_'

/-- Consumes a literal prefix, or fails. -/
def stripPre : List Char → List Char → Option (List Char)
  | [], l => some l
  | _ :: _, [] => none
  | p :: ps, c :: cs => if c == p then stripPre ps cs else none

/-- Matches `:` `\d+` `:cert/` `(\w+)` and returns the greedy group 1. -/
def matchTailCert : List Char → Option (List Char)
  | ':' :: rest =>
    if (rest.takeWhile Char.isDigit).isEmpty then none
    else
      match rest.dropWhile Char.isDigit with
      | ':' :: 'c' :: 'e' :: 'r' :: 't' :: '/' :: rest3 =>
        let ws := rest3.takeWhile isWordChar
        if ws.isEmpty then none else some ws
      | _ => none
  | _ => none

/-- The lazy `\S+?`: consume the least non-empty run of non-space characters
after which the tail of the pattern matches. -/
def seekCertSep : List Char → Option (List Char)
  | [] => none
  | c :: rest =>
    if isJsSpace c then none
    else
      match matchTailCert rest with
      | some cap => some cap
      | none => seekCertSep rest

/-- One attempt to match the whole pattern at the current position. -/
def certArnMatchAt (l : List Char) : Option (List Char) :=
  (stripPre "arn:aws:iot:".toList l).bind seekCertSep

/-- The leftmost-position search `String.match` performs. -/
def certArnSearch : List Char → Option (List Char)
  | [] => none
  | c :: rest =>
    match certArnMatchAt (c :: rest) with
    | some cap => some cap
    | none => certArnSearch rest

/-- `principal.match(CERT_ARN_PATTERN)` followed by taking group 1. -/
def certArnCapture (s : String) : Option String :=
  (certArnSearch s.toList).map fun l => String.mk l

/-! ## deleteResource (dynamicResources/commands/deleteResource.ts)

The confirmation dialog and the Cloud Control call are oracles; the calls
made and the telemetry emitted are returned as a trace. -/

/-- A thrown JS error, carrying its `name`. -/
structure JsError where
  name : String
deriving DecidableEq

/-- One record emitted by `recordDynamicresourceMutateResource`. -/
structure DynamicResourceTelemetry where
  dynamicResourceOperation : String
  resourceType : String
  result : String
deriving DecidableEq

structure DeleteResourceEnv where
  /-- Outcome of `showConfirmationMessage`. -/
  confirmed : Bool
  /-- Outcome of `cloudControl.deleteResource`. -/
  deleteOutcome : Except JsError Unit

structure DeleteResourceTrace where
  /-- `(TypeName, Identifier)` of each `cloudControl.deleteResource` call. -/
  deleteCalls : List (String × String)
  telemetry : List DynamicResourceTelemetry
  infoMessages : List String
  warnMessages : List String
  viewLogsMessages : List String
deriving DecidableEq

/-- The try/catch body inside `window.withProgress`: the returned boolean,
the telemetry `result` set on the way out, and the user-facing message key. -/
def deleteResourceAttempt (outcome : Except JsError Unit) :
    Bool × String × List String × List String × List String :=
  match outcome with
  | Except.ok _ => (true, "Succeeded", ["aws.resources.deleteResource.success"], [], [])
  | Except.error e =>
    if e.name == "UnsupportedActionException" then
      (false, "Cancelled", [], ["aws.resources.deleteResource.unsupported"], [])
    else (false, "Failed", [], [], ["aws.resources.deleteResource.failure"])

/-- `deleteResource(cloudControl, typeName, identifier)`. -/
def deleteResource (env : DeleteResourceEnv) (typeName identifier : String) :
    Bool × DeleteResourceTrace :=
  if !env.confirmed then (false, ⟨[], [], [], [], []⟩)
  else
    let a := deleteResourceAttempt env.deleteOutcome
    -- the `finally` block records exactly one telemetry event per attempt
    (a.1, ⟨[(typeName, identifier)], [⟨"Delete", typeName, a.2.1⟩], a.2.2.1, a.2.2.2.1, a.2.2.2.2⟩)

/-! ## The IoT client (shared/clients/iotClient.ts)

The `aws-sdk` service object is an oracle (`IotSdk`); each client method
builds the parameters it sends from the incoming request exactly as the
source does.  Optional numeric fields are `Option Nat`, optional strings
`Option String`. -/

def DEFAULT_MAX_THINGS : Nat := 250

structure ThingAttribute where
  thingName : Option String
  thingArn : Option String
deriving DecidableEq

structure ListThingsRequest where
  maxResults : Option Nat
  nextToken : Option String

structure SdkListThingsParams where
  maxResults : Option Nat
  nextToken : Option String
deriving DecidableEq

structure ListThingsOutput where
  things : Option (List ThingAttribute)
  nextToken : Option String
deriving DecidableEq

structure ListCertificatesRequest where
  pageSize : Option Nat
  marker : Option String
  ascendingOrder : Option Bool

structure SdkListCertificatesParams where
  pageSize : Option Nat
  marker : Option String
  ascendingOrder : Option Bool
deriving DecidableEq

structure CertificateDescription where
  status : Option String
  creationDate : Option Nat
deriving DecidableEq

structure ListCertificatesOutput where
  certificates : Option (List CertificateDescription)
  nextMarker : Option String

structure ListThingPrincipalsRequest where
  thingName : String
  maxResults : Option Nat
  nextToken : Option String

structure SdkListThingPrincipalsParams where
  thingName : String
  maxResults : Option Nat
  nextToken : Option String
deriving DecidableEq

structure ListThingPrincipalsOutput where
  principals : Option (List String)
  nextToken : Option String
deriving DecidableEq

structure ListPrincipalThingsRequest where
  maxResults : Option Nat
  nextToken : Option String
  principal : String

structure SdkListPrincipalThingsParams where
  maxResults : Option Nat
  nextToken : Option String
  principal : String
deriving DecidableEq

structure ListPrincipalThingsOutput where
  things : Option (List String)
  nextToken : Option String

structure ListPoliciesRequest where
  principal : Option String
  pageSize : Option Nat
  marker : Option String
  ascendingOrder : Option Bool

structure SdkListPoliciesParams where
  pageSize : Option Nat
  marker : Option String
  ascendingOrder : Option Bool
deriving DecidableEq

structure ListPrincipalPoliciesRequest where
  principal : String
  pageSize : Option Nat
  marker : Option String
  ascendingOrder : Option Bool

structure SdkListPrincipalPoliciesParams where
  principal : String
  pageSize : Option Nat
  marker : Option String
  ascendingOrder : Option Bool
deriving DecidableEq

structure IotPolicyInfo where
  policyName : Option String
  policyArn : Option String

structure ListPoliciesOutput where
  policies : Option (List IotPolicyInfo)
  nextMarker : Option String

structure DescribeCertificateOutput where
  certificateDescription : Option CertificateDescription
deriving DecidableEq

/-- The SDK service object: every method the claims exercise. -/
structure IotSdk where
  listThings : SdkListThingsParams → Except JsError ListThingsOutput
  listCertificates : SdkListCertificatesParams → Except JsError ListCertificatesOutput
  listThingPrincipals : SdkListThingPrincipalsParams → Except JsError ListThingPrincipalsOutput
  listPrincipalThings : SdkListPrincipalThingsParams → Except JsError ListPrincipalThingsOutput
  listPolicies : SdkListPoliciesParams → Except JsError ListPoliciesOutput
  listPrincipalPolicies : SdkListPrincipalPoliciesParams → Except JsError ListPoliciesOutput
  describeCertificate : String → Except JsError DescribeCertificateOutput

namespace DefaultIotClient

/-- Parameters `listThings` sends: `maxResults: request?.maxResults ?? DEFAULT_MAX_THINGS`. -/
def listThingsParams (request : Option ListThingsRequest) : SdkListThingsParams :=
  ⟨some ((request.bind ListThingsRequest.maxResults).getD DEFAULT_MAX_THINGS),
    request.bind ListThingsRequest.nextToken⟩

def listThings (iot : IotSdk) (request : Option ListThingsRequest) :
    Except JsError ListThingsOutput :=
  iot.listThings (listThingsParams request)

/-- `listAllThings` calls `iot.listThings()` with no parameters and defaults
a missing `things` field to the empty list. -/
def listAllThings (iot : IotSdk) : Except JsError (List ThingAttribute) :=
  (iot.listThings ⟨none, none⟩).map fun output => output.things.getD []

/-- Parameters `listCertificates` sends: `pageSize: request.pageSize ?? DEFAULT_MAX_THINGS`. -/
def listCertificatesParams (request : ListCertificatesRequest) : SdkListCertificatesParams :=
  ⟨some (request.pageSize.getD DEFAULT_MAX_THINGS), request.marker, request.ascendingOrder⟩

def listCertificates (iot : IotSdk) (request : ListCertificatesRequest) :
    Except JsError ListCertificatesOutput :=
  iot.listCertificates (listCertificatesParams request)

/-- Parameters `listThingPrincipals` sends. -/
def listThingPrincipalsParams (request : ListThingPrincipalsRequest) :
    SdkListThingPrincipalsParams :=
  ⟨request.thingName, some (request.maxResults.getD DEFAULT_MAX_THINGS), request.nextToken⟩

def listThingPrincipals (iot : IotSdk) (request : ListThingPrincipalsRequest) :
    Except JsError ListThingPrincipalsOutput :=
  iot.listThingPrincipals (listThingPrincipalsParams request)

/-- Parameters `listThingsForCert` sends to `listPrincipalThings`. -/
def listPrincipalThingsParams (request : ListPrincipalThingsRequest) :
    SdkListPrincipalThingsParams :=
  ⟨some (request.maxResults.getD DEFAULT_MAX_THINGS), request.nextToken, request.principal⟩

/-- `listThingsForCert`: sends the parameters above and defaults a missing
`things` field to the empty list. -/
def listThingsForCert (iot : IotSdk) (request : ListPrincipalThingsRequest) :
    Except JsError (List String) :=
  (iot.listPrincipalThings (listPrincipalThingsParams request)).map fun output =>
    output.things.getD []

/-- Parameters `listPolicies` sends: `pageSize: request.pageSize ?? DEFAULT_MAX_THINGS`. -/
def listPoliciesParams (request : ListPoliciesRequest) : SdkListPoliciesParams :=
  ⟨some (request.pageSize.getD DEFAULT_MAX_THINGS), request.marker, request.ascendingOrder⟩

def listPolicies (iot : IotSdk) (request : ListPoliciesRequest) :
    Except JsError ListPoliciesOutput :=
  iot.listPolicies (listPoliciesParams request)

/-- Parameters `listPrincipalPolicies` sends. -/
def listPrincipalPoliciesParams (request : ListPrincipalPoliciesRequest) :
    SdkListPrincipalPoliciesParams :=
  ⟨request.principal, some (request.pageSize.getD DEFAULT_MAX_THINGS), request.marker,
    request.ascendingOrder⟩

def listPrincipalPolicies (iot : IotSdk) (request : ListPrincipalPoliciesRequest) :
    Except JsError ListPoliciesOutput :=
  iot.listPrincipalPolicies (listPrincipalPoliciesParams request)

end DefaultIotClient

/-- A `DefaultIotCertificate` as built by `listThingCertificates`. -/
structure IotCertificate where
  arn : String
  id : String
  activeStatus : String
  creationDate : Nat
deriving DecidableEq

/-- The body mapped over each principal in `listThingCertificates`: skip
principals that do not match the certificate ARN pattern, describe the
certificate, and skip it if the status is falsy (absent or the empty
string) or the creation date absent. -/
def describePrincipal (iot : IotSdk) (iotPrincipal : String) :
    Except JsError (Option IotCertificate) :=
  match certArnCapture iotPrincipal with
  | none => Except.ok none
  | some certId =>
    match iot.describeCertificate certId with
    | Except.error e => Except.error e
    | Except.ok certificate =>
      let activationStatus := certificate.certificateDescription.bind CertificateDescription.status
      let certDate := certificate.certificateDescription.bind CertificateDescription.creationDate
      -- `if (!activationStatus || !certDate) return undefined`: an empty
      -- string is falsy in JS, a Date object is always truthy
      match activationStatus, certDate with
      | some st, some d =>
        if st == "" then Except.ok none
        else Except.ok (some ⟨iotPrincipal, certId, st, d⟩)
      | _, _ => Except.ok none

/-- `Promise.all` over the per-principal promises: the first rejection
rejects the whole call. -/
def describeAll (iot : IotSdk) : List String → Except JsError (List (Option IotCertificate))
  | [] => Except.ok []
  | p :: ps =>
    match describePrincipal iot p with
    | Except.error e => Except.error e
    | Except.ok c =>
      match describeAll iot ps with
      | Except.error e => Except.error e
      | Except.ok cs => Except.ok (c :: cs)

structure ListThingCertificatesResponse where
  certificates : List IotCertificate
  nextToken : Option String
deriving DecidableEq

/-- `DefaultIotClient.listThingCertificates`. -/
def listThingCertificates (iot : IotSdk) (request : ListThingPrincipalsRequest) :
    Except JsError ListThingCertificatesResponse :=
  match DefaultIotClient.listThingPrincipals iot request with
  | Except.error e => Except.error e
  | Except.ok output =>
    let iotPrincipals := output.principals.getD []
    match describeAll iot iotPrincipals with
    | Except.error e => Except.error e
    | Except.ok allCerts =>
      -- the lodash reject-undefined-then-cast pipeline
      Except.ok ⟨allCerts.filterMap id, output.nextToken⟩

/-! ## IoT certificate nodes and updateCert commands
(iot/explorer/iotCertificateNode.ts, iot/commands/updateCert.ts) -/

structure UpdateCertificateRequest where
  certificateId : String
  newStatus : String
deriving DecidableEq

/-- A certificate node; the parent (thing node or certificate folder node)
is identified abstractly for the refresh trace. -/
structure IotCertificateNode where
  certificate : IotCertificate
  parent : String

/-- `IotCertificateNode.activate`: the updateCertificate request it sends. -/
def IotCertificateNode.activate (node : IotCertificateNode) : UpdateCertificateRequest :=
  ⟨node.certificate.id, "ACTIVE"⟩

/-- `IotCertificateNode.deactivate`: the updateCertificate request it sends. -/
def IotCertificateNode.deactivate (node : IotCertificateNode) : UpdateCertificateRequest :=
  ⟨node.certificate.id, "INACTIVE"⟩

/-- `IotCertificateNode.revoke`: the updateCertificate request it sends. -/
def IotCertificateNode.revoke (node : IotCertificateNode) : UpdateCertificateRequest :=
  ⟨node.certificate.id, "REVOKED"⟩

structure CertCommandEnv where
  /-- Outcome of `showConfirmationMessage`. -/
  confirmed : Bool
  /-- Outcome of `iot.updateCertificate`. -/
  updateOutcome : Except JsError Unit

structure CertCommandTrace where
  updateCalls : List UpdateCertificateRequest
  /-- Parents whose `clearChildren` ran (via `refreshNode`). -/
  clearedNodes : List String
  /-- Nodes passed to `aws.refreshAwsExplorerNode` (via `refreshNode`). -/
  refreshedNodes : List String
  statusBarMessages : List String
  viewLogsMessages : List String
deriving DecidableEq

/-- Shared shape of the three updateCert commands: prompt, send the node's
update request, report, and refresh the parent whether or not the update
threw. -/
def certUpdateCommand (request : UpdateCertificateRequest) (successKey errorKey : String)
    (env : CertCommandEnv) (node : IotCertificateNode) : CertCommandTrace :=
  if !env.confirmed then ⟨[], [], [], [], []⟩
  else
    match env.updateOutcome with
    | Except.ok _ => ⟨[request], [node.parent], [node.parent], [successKey], []⟩
    | Except.error _ => ⟨[request], [node.parent], [node.parent], [], [errorKey]⟩

/-- `activateCertificateCommand`. -/
def activateCertificateCommand (env : CertCommandEnv) (node : IotCertificateNode) :
    CertCommandTrace :=
  certUpdateCommand node.activate "AWS.iot.activateCert.success" "AWS.iot.activateCert.error"
    env node

/-- `deactivateCertificateCommand`. -/
def deactivateCertificateCommand (env : CertCommandEnv) (node : IotCertificateNode) :
    CertCommandTrace :=
  certUpdateCommand node.deactivate "AWS.iot.deactivateCert.success" "AWS.iot.deactivateCert.error"
    env node

/-- `revokeCertificateCommand`. -/
def revokeCertificateCommand (env : CertCommandEnv) (node : IotCertificateNode) :
    CertCommandTrace :=
  certUpdateCommand node.revoke "AWS.iot.revokeCert.success" "AWS.iot.revokeCert.error"
    env node

/-! ## IoT policy nodes and detachPolicy
(iot/explorer/iotPolicyNode.ts, iot/commands/detachPolicy.ts) -/

structure IotPolicy where
  name : String
  arn : String

/-- The parent of an `IotPolicyNode`: the policy folder or a certificate node. -/
inductive IotPolicyParent where
  | policyFolder : IotPolicyParent
  | certificateNode (certificate : IotCertificate) : IotPolicyParent

structure IotPolicyNode where
  policy : IotPolicy
  parent : IotPolicyParent

structure DetachPolicyRequest where
  policyName : String
  target : String
deriving DecidableEq

/-- `IotPolicyNode.detachPolicy`: returns without calling the client when the
parent is the policy folder node; otherwise detaches from the parent
certificate's ARN.  The list holds the `iot.detachPolicy` calls made. -/
def IotPolicyNode.detachPolicy (node : IotPolicyNode) : List DetachPolicyRequest :=
  match node.parent with
  | IotPolicyParent.policyFolder => []
  | IotPolicyParent.certificateNode certificate => [⟨node.policy.name, certificate.arn⟩]

structure DetachCommandEnv where
  /-- Outcome of `showConfirmationMessage`. -/
  confirmed : Bool
  /-- Outcome of `iot.detachPolicy`. -/
  detachOutcome : Except JsError Unit

structure DetachCommandTrace where
  /-- Message keys of confirmation prompts shown. -/
  prompts : List String
  detachCalls : List DetachPolicyRequest
  statusBarMessages : List String
  viewLogsMessages : List String
  /-- Whether `refreshNode(node.parent)` ran. -/
  refreshed : Bool
deriving DecidableEq

/-- `detachPolicyCommand`. -/
def detachPolicyCommand (env : DetachCommandEnv) (node : IotPolicyNode) : DetachCommandTrace :=
  match node.parent with
  | IotPolicyParent.policyFolder => ⟨[], [], [], [], false⟩
  | IotPolicyParent.certificateNode _ =>
    if !env.confirmed then ⟨["AWS.iot.detachPolicy.prompt"], [], [], [], false⟩
    else
      match env.detachOutcome with
      | Except.ok _ =>
        ⟨["AWS.iot.detachPolicy.prompt"], node.detachPolicy,
          ["AWS.iot.detachPolicy.success"], [], true⟩
      | Except.error _ =>
        ⟨["AWS.iot.detachPolicy.prompt"], node.detachPolicy, [],
          ["AWS.iot.detachPolicy.error"], true⟩

/-! ## createCertificateCommand (iot/commands/createCert.ts) -/

structure CreateCertificateRequest where
  active : Bool
  certPath : String
  privateKeyPath : String
  publicKeyPath : String
deriving DecidableEq

structure CreateCertEnv where
  /-- Outcome of `showConfirmationMessage`. -/
  confirmed : Bool
  /-- Outcome of `window.showSaveDialog` (`fsPath` of the chosen location). -/
  saveLocation : Option String
  /-- The `fileExists` oracle. -/
  fileExists : String → Bool
  /-- Outcome of `iot.createCertificateAndKeys`. -/
  createOutcome : Except JsError Unit

structure CreateCertTrace where
  createCalls : List CreateCertificateRequest
  viewLogsMessages : List String
  /-- Whether `refreshNode(node)` ran. -/
  refreshed : Bool
  /-- The command rethrows a client failure. -/
  thrown : Option JsError
deriving DecidableEq

/-- `createCertificateCommand`: prompts, asks for a save location, derives
the three output paths, and refuses to overwrite any existing file. -/
def createCertificateCommand (env : CreateCertEnv) : CreateCertTrace :=
  if !env.confirmed then ⟨[], [], false, none⟩
  else
    match env.saveLocation with
    | none => ⟨[], [], false, none⟩
    | some folderLocation =>
      let certPath := folderLocation ++ "-certificate.pem.crt"
      let privateKeyPath := folderLocation ++ "-private.pem.key"
      let publicKeyPath := folderLocation ++ "-public.pem.key"
      if env.fileExists certPath then ⟨[], ["AWS.iot.createCert.error"], false, none⟩
      else if env.fileExists privateKeyPath then ⟨[], ["AWS.iot.createCert.error"], false, none⟩
      else if env.fileExists publicKeyPath then ⟨[], ["AWS.iot.createCert.error"], false, none⟩
      else
        match env.createOutcome with
        | Except.ok _ =>
          ⟨[⟨false, certPath, privateKeyPath, publicKeyPath⟩], [], true, none⟩
        | Except.error e =>
          ⟨[⟨false, certPath, privateKeyPath, publicKeyPath⟩],
            ["AWS.iot.createCert.error"], false, some e⟩

/-! ## The dynamic resource manager

`dynamicResources/awsResourceManager.ts` itself is not among the sources;
only its test suite is.  The manager is therefore modelled from the spec:
"the dynamic resource manager maps opened virtual documents to in-memory
AWS resource descriptors, tracks schema mappings, and reconciles preview
vs. editable document state — a thin bookkeeping layer (URI-to-node maps,
JSON formatting, file write) over IDE document APIs and two AWS API calls
(getResource, describeType)" — with the concrete behavior pinned down by
the ResourceManager test suite. -/

/-- Modelled from the spec: `formatResourceModel`, the "JSON formatting"
the manager applies to the resource model (the test suite compares the
preview URI query against it). -/
def formatResourceModel (input : List Nat) (tabSize : Nat) : Option (List Nat) :=
  (jsonParse input).map fun v => jsonStringify v tabSize

/-- A `ResourceNode`: a dynamic resource identified by type name and identifier. -/
structure ResourceNode where
  typeName : String
  identifier : String
deriving DecidableEq

/-- A vscode URI, reduced to the parts the tests observe. -/
structure UriM where
  scheme : String
  fsPath : String
  query : List Nat
deriving DecidableEq

/-- A mapping handed to `schemaService.registerMapping`. -/
structure SchemaMapping where
  /-- The test asserts `mapping.type === 'json'`. -/
  mappingType : String
  path : String
  /-- Location of the schema file, absent when unregistering. -/
  schema : Option String
deriving DecidableEq

/-- Modelled from the spec: the manager's URI-to-node bookkeeping state. -/
structure ResourceManagerState where
  openedResources : List (ResourceNode × UriM)

/-- The IDE and AWS oracles the manager consults. -/
structure ResourceManagerEnv where
  globalStoragePath : String
  tabSize : Nat
  /-- `cloudControl.getResource(...).ResourceDescription.Properties`. -/
  getResourceProperties : ResourceNode → List Nat
  /-- `cloudFormation.describeType(typeName).Schema`. -/
  describeTypeSchema : String → List Nat

/-- What one `open` call did, besides updating the state. -/
structure OpenTrace where
  openedUri : UriM
  /-- The `preview` option of `showTextDocument`. -/
  preview : Bool
  schemaRegistrations : List SchemaMapping
  describeTypeCalls : List String
  fileWrites : List (String × List Nat)
deriving DecidableEq

/-- The fsPath of a preview document: `identifier.typeName.preview.json`. -/
def previewFsPath (node : ResourceNode) : String :=
  node.identifier ++ "." ++ node.typeName ++ ".preview.json"

/-- The fsPath of an editable document: `identifier.typeName.awsResource.json`
inside global storage. -/
def editFsPath (env : ResourceManagerEnv) (node : ResourceNode) : String :=
  env.globalStoragePath ++ "/" ++ node.identifier ++ "." ++ node.typeName ++ ".awsResource.json"

/-- Where the schema for a type is saved: `typeName.schema.json` in global storage. -/
def schemaFsPath (env : ResourceManagerEnv) (typeName : String) : String :=
  env.globalStoragePath ++ "/" ++ typeName ++ ".schema.json"

namespace AwsResourceManager

/-- Modelled from the spec: `AwsResourceManager.open(node, preview)`.  Any
existing document for the node is closed first (its mapping removed); a
preview open creates an `awsResource`-scheme URI carrying the formatted
model and touches neither the schema service nor `describeType`; an edit
open writes the formatted model to a file-scheme document, fetches the
type schema via `describeType`, saves it, and registers one JSON schema
mapping.  `none` models `getResource` returning an unparsable model. -/
def openResource (env : ResourceManagerEnv) (state : ResourceManagerState) (node : ResourceNode)
    (preview : Bool) : Option (ResourceManagerState × OpenTrace) :=
  match formatResourceModel (env.getResourceProperties node) env.tabSize with
  | none => none
  | some model =>
    -- close an existing document for this node before reopening it
    let remaining := state.openedResources.filter fun e => e.1 ≠ node
    if preview then
      let uri : UriM := ⟨"awsResource", previewFsPath node, model⟩
      some (⟨(node, uri) :: remaining⟩, ⟨uri, true, [], [], []⟩)
    else
      let uri : UriM := ⟨"file", editFsPath env node, []⟩
      let schemaLocation := schemaFsPath env node.typeName
      some (⟨(node, uri) :: remaining⟩,
        ⟨uri, false, [⟨"json", uri.fsPath, some schemaLocation⟩], [node.typeName],
          [(uri.fsPath, model), (schemaLocation, env.describeTypeSchema node.typeName)]⟩)

/-- Modelled from the spec: `toUri` looks the node up in the URI-to-node map. -/
def toUri (state : ResourceManagerState) (node : ResourceNode) : Option UriM :=
  (state.openedResources.find? fun e => e.1 == node).map fun e => e.2

/-- Modelled from the spec: `fromUri` looks the URI up in the URI-to-node map. -/
def fromUri (state : ResourceManagerState) (uri : UriM) : Option ResourceNode :=
  (state.openedResources.find? fun e => e.2 == uri).map fun e => e.1

end AwsResourceManager

/-! ## Concrete fixtures used by witnesses -/

/-- A concrete SDK fixture: one thing with two principals, of which only the
first is a certificate ARN. -/
def sdkFixture : IotSdk where
  listThings _ := Except.error ⟨"NotMocked"⟩
  listCertificates _ := Except.error ⟨"NotMocked"⟩
  listThingPrincipals _ :=
    Except.ok ⟨some ["arn:aws:iot:us-east-1:123456789012:cert/ab12cd", "arn:aws:iam::1:user/u"],
      some "token0"⟩
  listPrincipalThings _ := Except.error ⟨"NotMocked"⟩
  listPolicies _ := Except.error ⟨"NotMocked"⟩
  listPrincipalPolicies _ := Except.error ⟨"NotMocked"⟩
  describeCertificate _ := Except.ok ⟨some ⟨some "ACTIVE", some 1577836800000⟩⟩

/-- The request fixture for `listThingCertificates`. -/
def requestFixture : ListThingPrincipalsRequest :=
  ⟨"thing0", none, none⟩

/-- A resource-manager environment fixture whose resource model and schema
are the empty JSON object. -/
def rmEnvFixture : ResourceManagerEnv :=
  ⟨"/storage", 2, fun _ => [0x7B, 0x7D], fun _ => [0x7B, 0x7D]⟩

/-- A resource-node fixture. -/
def rmNodeFixture : ResourceNode :=
  ⟨"sometype", "someidentifier"⟩

/-! # Theorems -/

/-- C1: for every typeName and identifier, if the user does not confirm the
confirmation dialog, `deleteResource` returns false and never invokes
`cloudControl.deleteResource`, so the remote resource state is unchanged on
cancellation. -/
theorem deleteResource_cancelled (env : DeleteResourceEnv) (typeName identifier : String)
    (h : env.confirmed = false) :
    (deleteResource env typeName identifier).1 = false ∧
    (deleteResource env typeName identifier).2.deleteCalls = [] := by
  simp [deleteResource, h]

theorem deleteResource_cancelled_witness :
    (deleteResource ⟨false, Except.ok ()⟩ "AWS::S3::Bucket" "my-bucket").1 = false ∧
    (deleteResource ⟨false, Except.ok ()⟩ "AWS::S3::Bucket" "my-bucket").2.deleteCalls = [] :=
  deleteResource_cancelled ⟨false, Except.ok ()⟩ "AWS::S3::Bucket" "my-bucket" rfl

/-- C2: in every confirmed invocation, `deleteResource` returns true iff the
Cloud Control call succeeds; an `UnsupportedActionException` yields false
with telemetry result `Cancelled`; any other error yields false with result
`Failed`; and exactly one dynamic-resource telemetry record, with operation
`Delete`, is emitted. -/
theorem deleteResource_confirmed (env : DeleteResourceEnv) (typeName identifier : String)
    (h : env.confirmed = true) :
    ((deleteResource env typeName identifier).1 = true ↔ env.deleteOutcome = Except.ok ())
    ∧ (∀ e : JsError, env.deleteOutcome = Except.error e →
        (e.name = "UnsupportedActionException" →
          (deleteResource env typeName identifier).1 = false ∧
          (deleteResource env typeName identifier).2.telemetry =
            [⟨"Delete", typeName, "Cancelled"⟩]) ∧
        (e.name ≠ "UnsupportedActionException" →
          (deleteResource env typeName identifier).1 = false ∧
          (deleteResource env typeName identifier).2.telemetry =
            [⟨"Delete", typeName, "Failed"⟩]))
    ∧ (deleteResource env typeName identifier).2.telemetry.length = 1
    ∧ ∀ t ∈ (deleteResource env typeName identifier).2.telemetry,
        t.dynamicResourceOperation = "Delete" := by
  rcases env with ⟨c, o⟩
  simp only at h
  subst h
  cases o with
  | ok u =>
    cases u
    simp [deleteResource, deleteResourceAttempt]
  | error e =>
    by_cases he : e.name = "UnsupportedActionException" <;>
      simp [deleteResource, deleteResourceAttempt, he]

theorem deleteResource_confirmed_witness :
    ((deleteResource ⟨true, Except.ok ()⟩ "AWS::Logs::LogGroup" "grp").1 = true ↔
      (Except.ok () : Except JsError Unit) = Except.ok ()) :=
  (deleteResource_confirmed ⟨true, Except.ok ()⟩ "AWS::Logs::LogGroup" "grp" rfl).1

/-- C3: every IoT list operation defaults an omitted page-size field to
`DEFAULT_MAX_THINGS = 250` in the parameters it sends, and `listAllThings`
and `listThingsForCert` replace a missing `things` field of the response by
the empty list, never returning undefined. -/
theorem iotClient_pageSize_defaults :
    DEFAULT_MAX_THINGS = 250
    ∧ (∀ request : Option ListThingsRequest,
        request.bind ListThingsRequest.maxResults = none →
        (DefaultIotClient.listThingsParams request).maxResults = some 250)
    ∧ (∀ request : ListCertificatesRequest, request.pageSize = none →
        (DefaultIotClient.listCertificatesParams request).pageSize = some 250)
    ∧ (∀ request : ListThingPrincipalsRequest, request.maxResults = none →
        (DefaultIotClient.listThingPrincipalsParams request).maxResults = some 250)
    ∧ (∀ request : ListPrincipalThingsRequest, request.maxResults = none →
        (DefaultIotClient.listPrincipalThingsParams request).maxResults = some 250)
    ∧ (∀ request : ListPoliciesRequest, request.pageSize = none →
        (DefaultIotClient.listPoliciesParams request).pageSize = some 250)
    ∧ (∀ request : ListPrincipalPoliciesRequest, request.pageSize = none →
        (DefaultIotClient.listPrincipalPoliciesParams request).pageSize = some 250)
    ∧ (∀ (iot : IotSdk) (output : ListThingsOutput),
        iot.listThings ⟨none, none⟩ = Except.ok output → output.things = none →
        DefaultIotClient.listAllThings iot = Except.ok [])
    ∧ (∀ (iot : IotSdk) (request : ListPrincipalThingsRequest)
        (output : ListPrincipalThingsOutput),
        iot.listPrincipalThings (DefaultIotClient.listPrincipalThingsParams request) =
          Except.ok output → output.things = none →
        DefaultIotClient.listThingsForCert iot request = Except.ok []) := by
  refine ⟨rfl, ?_, ?_, ?_, ?_, ?_, ?_, ?_, ?_⟩
  · intro request h
    simp [DefaultIotClient.listThingsParams, h, DEFAULT_MAX_THINGS]
  · intro request h
    simp [DefaultIotClient.listCertificatesParams, h, DEFAULT_MAX_THINGS]
  · intro request h
    simp [DefaultIotClient.listThingPrincipalsParams, h, DEFAULT_MAX_THINGS]
  · intro request h
    simp [DefaultIotClient.listPrincipalThingsParams, h, DEFAULT_MAX_THINGS]
  · intro request h
    simp [DefaultIotClient.listPoliciesParams, h, DEFAULT_MAX_THINGS]
  · intro request h
    simp [DefaultIotClient.listPrincipalPoliciesParams, h, DEFAULT_MAX_THINGS]
  · intro iot output h hnone
    simp [DefaultIotClient.listAllThings, h, Except.map, hnone]
  · intro iot request output h hnone
    simp [DefaultIotClient.listThingsForCert, h, Except.map, hnone]

theorem iotClient_pageSize_defaults_witness :
    (DefaultIotClient.listThingsParams none).maxResults = some 250 ∧
    (DefaultIotClient.listPoliciesParams ⟨none, none, none, none⟩).pageSize = some 250 :=
  ⟨iotClient_pageSize_defaults.2.1 none rfl,
    iotClient_pageSize_defaults.2.2.2.2.2.1 ⟨none, none, none, none⟩ rfl⟩

/-- Anything `describeAll` returns came from `describePrincipal` on some
listed principal. -/
theorem describeAll_mem_some (iot : IotSdk) :
    ∀ (ps : List String) (cs : List (Option IotCertificate)),
      describeAll iot ps = Except.ok cs →
      ∀ c : IotCertificate, some c ∈ cs →
        ∃ p ∈ ps, describePrincipal iot p = Except.ok (some c) := by
  intro ps
  induction ps with
  | nil =>
    intro cs h c hc
    simp [describeAll] at h
    subst h
    simp at hc
  | cons p ps ih =>
    intro cs h c hc
    simp only [describeAll] at h
    cases hp : describePrincipal iot p with
    | error e => simp only [hp] at h; exact absurd h (by simp)
    | ok c0 =>
      simp only [hp] at h
      cases hps : describeAll iot ps with
      | error e => simp only [hps] at h; exact absurd h (by simp)
      | ok cs0 =>
        simp only [hps, Except.ok.injEq] at h
        subst h
        rcases List.mem_cons.mp hc with hc | hc
        · exact ⟨p, List.mem_cons_self p ps, by rw [hp, hc]⟩
        · obtain ⟨q, hq, hdq⟩ := ih cs0 hps c hc
          exact ⟨q, List.mem_cons_of_mem p hq, hdq⟩

/-- Every listed principal's `describePrincipal` outcome appears in the
`describeAll` result. -/
theorem describeAll_complete (iot : IotSdk) :
    ∀ (ps : List String) (cs : List (Option IotCertificate)),
      describeAll iot ps = Except.ok cs →
      ∀ p ∈ ps, ∀ c, describePrincipal iot p = Except.ok c → c ∈ cs := by
  intro ps
  induction ps with
  | nil => intro cs h p hp; simp at hp
  | cons q qs ih =>
    intro cs h p hp c hc
    simp only [describeAll] at h
    cases hq : describePrincipal iot q with
    | error e => simp only [hq] at h; exact absurd h (by simp)
    | ok c0 =>
      simp only [hq] at h
      cases hqs : describeAll iot qs with
      | error e => simp only [hqs] at h; exact absurd h (by simp)
      | ok cs0 =>
        simp only [hqs, Except.ok.injEq] at h
        subst h
        rcases List.mem_cons.mp hp with hp | hp
        · subst hp
          rw [hq] at hc
          cases hc
          exact List.mem_cons_self _ _
        · exact List.mem_cons_of_mem c0 (ih cs0 hqs p hp c hc)

/-- What a kept certificate means: its ARN matched the pattern, the id is
the capture group, and describeCertificate produced a truthy status and a
creation date. -/
theorem describePrincipal_ok_some (iot : IotSdk) (p : String) (c : IotCertificate)
    (h : describePrincipal iot p = Except.ok (some c)) :
    certArnCapture p = some c.id ∧ c.arn = p ∧
      ∃ d, iot.describeCertificate c.id = Except.ok d ∧
        d.certificateDescription.bind CertificateDescription.status = some c.activeStatus ∧
        c.activeStatus ≠ "" ∧
        d.certificateDescription.bind CertificateDescription.creationDate =
          some c.creationDate := by
  unfold describePrincipal at h
  cases hcap : certArnCapture p with
  | none => simp only [hcap] at h; exact absurd h (by simp)
  | some certId =>
    simp only [hcap] at h
    cases hdesc : iot.describeCertificate certId with
    | error e => simp only [hdesc] at h; exact absurd h (by simp)
    | ok d =>
      simp only [hdesc] at h
      cases hst : d.certificateDescription.bind CertificateDescription.status with
      | none =>
        simp only [hst] at h
        cases d.certificateDescription.bind CertificateDescription.creationDate <;>
          exact absurd h (by simp)
      | some st =>
        simp only [hst] at h
        cases hdt : d.certificateDescription.bind CertificateDescription.creationDate with
        | none => simp only [hdt] at h; exact absurd h (by simp)
        | some dt =>
          simp only [hdt] at h
          by_cases hne : st = ""
          · simp only [if_pos (show (st == "") = true by simp [hne])] at h
            exact absurd h (by simp)
          · simp only [if_neg (show ¬(st == "") = true by simp [hne]), Except.ok.injEq,
              Option.some.injEq] at h
            subst h
            exact ⟨rfl, rfl, d, hdesc, hst, hne, hdt⟩

/-- The converse: a principal matching the pattern whose certificate has a
truthy status and a creation date is kept, with exactly these fields. -/
theorem describePrincipal_keeps (iot : IotSdk) (p : String) (certId : String)
    (d : DescribeCertificateOutput) (st : String) (dt : Nat)
    (hcap : certArnCapture p = some certId)
    (hdesc : iot.describeCertificate certId = Except.ok d)
    (hst : d.certificateDescription.bind CertificateDescription.status = some st)
    (hne : st ≠ "")
    (hdt : d.certificateDescription.bind CertificateDescription.creationDate = some dt) :
    describePrincipal iot p = Except.ok (some ⟨p, certId, st, dt⟩) := by
  unfold describePrincipal
  simp only [hcap, hdesc, hst, hdt, if_neg (show ¬(st == "") = true by simp [hne])]

/-- C4: `listThingCertificates` returns exactly those principals whose ARN
matches the certificate ARN pattern and for which `describeCertificate`
yields both a (truthy) status and a creation date; each returned
certificate's id is the capture group of its ARN; principals not matching
the pattern are silently dropped; the result is a list of fully-defined
certificates (its Lean type admits no undefined entries); and the
principals response's nextToken is passed through unchanged. -/
theorem listThingCertificates_spec (iot : IotSdk) (request : ListThingPrincipalsRequest)
    (output : ListThingPrincipalsOutput) (resp : ListThingCertificatesResponse)
    (hout : iot.listThingPrincipals (DefaultIotClient.listThingPrincipalsParams request) =
      Except.ok output)
    (hresp : listThingCertificates iot request = Except.ok resp) :
    resp.nextToken = output.nextToken
    ∧ (∀ c ∈ resp.certificates,
        c.arn ∈ output.principals.getD [] ∧ certArnCapture c.arn = some c.id ∧
        ∃ d, iot.describeCertificate c.id = Except.ok d ∧
          d.certificateDescription.bind CertificateDescription.status = some c.activeStatus ∧
          c.activeStatus ≠ "" ∧
          d.certificateDescription.bind CertificateDescription.creationDate =
            some c.creationDate)
    ∧ (∀ p ∈ output.principals.getD [], certArnCapture p = none →
        ∀ c ∈ resp.certificates, c.arn ≠ p)
    ∧ (∀ p ∈ output.principals.getD [], ∀ (certId : String) (d : DescribeCertificateOutput)
        (st : String) (dt : Nat),
        certArnCapture p = some certId →
        iot.describeCertificate certId = Except.ok d →
        d.certificateDescription.bind CertificateDescription.status = some st → st ≠ "" →
        d.certificateDescription.bind CertificateDescription.creationDate = some dt →
        (⟨p, certId, st, dt⟩ : IotCertificate) ∈ resp.certificates) := by
  unfold listThingCertificates at hresp
  rw [show DefaultIotClient.listThingPrincipals iot request =
    iot.listThingPrincipals (DefaultIotClient.listThingPrincipalsParams request) from rfl] at hresp
  simp only [hout] at hresp
  cases hall : describeAll iot (output.principals.getD []) with
  | error e => simp only [hall] at hresp; exact absurd hresp (by simp)
  | ok cs =>
    simp only [hall, Except.ok.injEq] at hresp
    subst hresp
    have hmem : ∀ c ∈ cs.filterMap id,
        ∃ p ∈ output.principals.getD [], describePrincipal iot p = Except.ok (some c) := by
      intro c hc
      have : some c ∈ cs := by
        rcases List.mem_filterMap.mp hc with ⟨a, ha, hid⟩
        cases a with
        | none => simp at hid
        | some a' => simp at hid; subst hid; exact ha
      exact describeAll_mem_some iot _ cs hall c this
    refine ⟨rfl, ?_, ?_, ?_⟩
    · intro c hc
      obtain ⟨p, hp, hdp⟩ := hmem c hc
      obtain ⟨hcap, harn, hrest⟩ := describePrincipal_ok_some iot p c hdp
      subst harn
      exact ⟨hp, hcap, hrest⟩
    · intro p hp hnone c hc harn
      obtain ⟨q, hq, hdq⟩ := hmem c hc
      obtain ⟨hcap, harn2, _⟩ := describePrincipal_ok_some iot q c hdq
      rw [harn2] at harn
      subst harn
      rw [hnone] at hcap
      exact absurd hcap (by simp)
    · intro p hp certId d st dt hcap hdesc hst hne hdt
      have hkeep := describePrincipal_keeps iot p certId d st dt hcap hdesc hst hne hdt
      have : some (⟨p, certId, st, dt⟩ : IotCertificate) ∈ cs :=
        describeAll_complete iot _ cs hall p hp _ hkeep
      exact List.mem_filterMap.mpr ⟨some ⟨p, certId, st, dt⟩, this, rfl⟩

theorem listThingCertificates_spec_witness :
    (⟨[⟨"arn:aws:iot:us-east-1:123456789012:cert/ab12cd", "ab12cd", "ACTIVE", 1577836800000⟩],
      some "token0"⟩ : ListThingCertificatesResponse).nextToken =
    (⟨some ["arn:aws:iot:us-east-1:123456789012:cert/ab12cd", "arn:aws:iam::1:user/u"],
      some "token0"⟩ : ListThingPrincipalsOutput).nextToken :=
  (listThingCertificates_spec sdkFixture requestFixture
    ⟨some ["arn:aws:iot:us-east-1:123456789012:cert/ab12cd", "arn:aws:iam::1:user/u"],
      some "token0"⟩
    ⟨[⟨"arn:aws:iot:us-east-1:123456789012:cert/ab12cd", "ab12cd", "ACTIVE", 1577836800000⟩],
      some "token0"⟩ rfl rfl).1

/-- What a preview open computes, once the model formats. -/
theorem openResource_true_eq (env : ResourceManagerEnv) (state : ResourceManagerState)
    (node : ResourceNode) (model : List Nat)
    (h : formatResourceModel (env.getResourceProperties node) env.tabSize = some model) :
    AwsResourceManager.openResource env state node true =
      some (⟨(node, ⟨"awsResource", previewFsPath node, model⟩) ::
          state.openedResources.filter fun e => e.1 ≠ node⟩,
        ⟨⟨"awsResource", previewFsPath node, model⟩, true, [], [], []⟩) := by
  unfold AwsResourceManager.openResource
  rw [h]
  rfl

/-- What an edit open computes, once the model formats. -/
theorem openResource_false_eq (env : ResourceManagerEnv) (state : ResourceManagerState)
    (node : ResourceNode) (model : List Nat)
    (h : formatResourceModel (env.getResourceProperties node) env.tabSize = some model) :
    AwsResourceManager.openResource env state node false =
      some (⟨(node, ⟨"file", editFsPath env node, []⟩) ::
          state.openedResources.filter fun e => e.1 ≠ node⟩,
        ⟨⟨"file", editFsPath env node, []⟩, false,
          [⟨"json", editFsPath env node, some (schemaFsPath env node.typeName)⟩],
          [node.typeName],
          [(editFsPath env node, model),
            (schemaFsPath env node.typeName, env.describeTypeSchema node.typeName)]⟩) := by
  unfold AwsResourceManager.openResource
  rw [h]
  rfl

/-- C5: the dynamic resource manager reconciles preview vs. editable state:
opening a resource node in preview mode opens a document whose URI uses the
`awsResource` scheme carrying the formatted resource model and registers no
schema mapping and never calls describeType, while opening the same node in
edit mode writes the resource's JSON to a file-scheme document and
registers exactly one JSON schema mapping whose schema is obtained via
describeType. -/
theorem resourceManager_preview_vs_edit (env : ResourceManagerEnv)
    (state : ResourceManagerState) (node : ResourceNode) (model : List Nat)
    (h : formatResourceModel (env.getResourceProperties node) env.tabSize = some model) :
    (∃ s t, AwsResourceManager.openResource env state node true = some (s, t))
    ∧ (∀ s t, AwsResourceManager.openResource env state node true = some (s, t) →
        t.openedUri.scheme = "awsResource" ∧ t.openedUri.fsPath = previewFsPath node ∧
        t.openedUri.query = model ∧ t.preview = true ∧
        t.schemaRegistrations = [] ∧ t.describeTypeCalls = [] ∧ t.fileWrites = [])
    ∧ (∀ s t, AwsResourceManager.openResource env state node false = some (s, t) →
        t.openedUri.scheme = "file" ∧ t.openedUri.fsPath = editFsPath env node ∧
        t.preview = false ∧
        t.fileWrites = [(editFsPath env node, model),
          (schemaFsPath env node.typeName, env.describeTypeSchema node.typeName)] ∧
        t.schemaRegistrations =
          [⟨"json", editFsPath env node, some (schemaFsPath env node.typeName)⟩] ∧
        t.describeTypeCalls = [node.typeName]) := by
  refine ⟨⟨_, _, openResource_true_eq env state node model h⟩, ?_, ?_⟩
  · intro s t ho
    rw [openResource_true_eq env state node model h] at ho
    simp only [Option.some.injEq, Prod.mk.injEq] at ho
    rw [← ho.2]
    simp
  · intro s t ho
    rw [openResource_false_eq env state node model h] at ho
    simp only [Option.some.injEq, Prod.mk.injEq] at ho
    rw [← ho.2]
    simp

theorem resourceManager_preview_vs_edit_witness :
    ∃ s t, AwsResourceManager.openResource rmEnvFixture ⟨[]⟩ rmNodeFixture true = some (s, t) :=
  (resourceManager_preview_vs_edit rmEnvFixture ⟨[]⟩ rmNodeFixture [0x7B, 0x7D] (by rfl)).1

/-- C6: the manager's URI-to-node map: for a node just opened,
`fromUri (toUri node)` returns that node; for a URI of no opened resource
`fromUri` returns undefined, and for an unopened node `toUri` returns
undefined; reopening a resource node (preview, then edit) removes the
prior mapping, so `fromUri` of the previous URI returns undefined
afterwards. -/
theorem resourceManager_uri_node_map (env : ResourceManagerEnv)
    (state : ResourceManagerState) (node : ResourceNode) :
    (∀ preview s t, AwsResourceManager.openResource env state node preview = some (s, t) →
      AwsResourceManager.toUri s node = some t.openedUri ∧
      AwsResourceManager.fromUri s t.openedUri = some node)
    ∧ (∀ uri : UriM, (∀ e ∈ state.openedResources, e.2 ≠ uri) →
        AwsResourceManager.fromUri state uri = none)
    ∧ ((∀ e ∈ state.openedResources, e.1 ≠ node) →
        AwsResourceManager.toUri state node = none)
    ∧ (∀ s1 t1 s2 t2, (∀ e ∈ state.openedResources, e.2 ≠ t1.openedUri) →
        AwsResourceManager.openResource env state node true = some (s1, t1) →
        AwsResourceManager.openResource env s1 node false = some (s2, t2) →
        AwsResourceManager.fromUri s2 t1.openedUri = none) := by
  refine ⟨?_, ?_, ?_, ?_⟩
  · intro preview s t ho
    cases hm : formatResourceModel (env.getResourceProperties node) env.tabSize with
    | none =>
      cases preview <;> simp [AwsResourceManager.openResource, hm] at ho
    | some model =>
      cases preview
      · rw [openResource_false_eq env state node model hm] at ho
        simp only [Option.some.injEq, Prod.mk.injEq] at ho
        rw [← ho.1, ← ho.2]
        constructor
        · simp [AwsResourceManager.toUri, List.find?]
        · simp [AwsResourceManager.fromUri, List.find?]
      · rw [openResource_true_eq env state node model hm] at ho
        simp only [Option.some.injEq, Prod.mk.injEq] at ho
        rw [← ho.1, ← ho.2]
        constructor
        · simp [AwsResourceManager.toUri, List.find?]
        · simp [AwsResourceManager.fromUri, List.find?]
  · intro uri hnone
    have hfind : List.find? (fun e => e.2 == uri) state.openedResources = none :=
      List.find?_eq_none.mpr (by intro e he; simpa using hnone e he)
    simp [AwsResourceManager.fromUri, hfind]
  · intro hnone
    have hfind : List.find? (fun e => e.1 == node) state.openedResources = none :=
      List.find?_eq_none.mpr (by intro e he; simpa using hnone e he)
    simp [AwsResourceManager.toUri, hfind]
  · intro s1 t1 s2 t2 hfresh h1 h2
    cases hm : formatResourceModel (env.getResourceProperties node) env.tabSize with
    | none => simp [AwsResourceManager.openResource, hm] at h1
    | some model =>
      rw [openResource_true_eq env state node model hm] at h1
      simp only [Option.some.injEq, Prod.mk.injEq] at h1
      obtain ⟨hs1, ht1⟩ := h1
      rw [openResource_false_eq env s1 node model hm] at h2
      simp only [Option.some.injEq, Prod.mk.injEq] at h2
      obtain ⟨hs2, ht2⟩ := h2
      subst hs2
      rw [← ht1]
      simp [AwsResourceManager.fromUri]
      intro a b hab hanode
      have hab' : (a, b) ∈ state.openedResources := by
        rw [← hs1] at hab
        rcases List.mem_cons.mp hab with h | h
        · cases h; exact absurd rfl hanode
        · exact (List.mem_filter.mp h).1
      have hb := hfresh (a, b) hab'
      rw [← ht1] at hb
      simpa using hb

theorem resourceManager_uri_node_map_witness :
    AwsResourceManager.fromUri ⟨[]⟩ ⟨"file", "/nowhere.json", []⟩ = none :=
  (resourceManager_uri_node_map rmEnvFixture ⟨[]⟩ rmNodeFixture).2.1
    ⟨"file", "/nowhere.json", []⟩ (by simp)

/-- C7: for every IoT certificate node, the activate, deactivate and revoke
commands, once confirmed, call `updateCertificate` with newStatus `ACTIVE`,
`INACTIVE` and `REVOKED` respectively for that certificate's id, and in
every confirmed invocation the parent node's children are cleared and the
parent refreshed, whether the update succeeds or throws. -/
theorem updateCert_commands_confirmed (env : CertCommandEnv) (node : IotCertificateNode)
    (h : env.confirmed = true) :
    (activateCertificateCommand env node).updateCalls = [⟨node.certificate.id, "ACTIVE"⟩]
    ∧ (deactivateCertificateCommand env node).updateCalls = [⟨node.certificate.id, "INACTIVE"⟩]
    ∧ (revokeCertificateCommand env node).updateCalls = [⟨node.certificate.id, "REVOKED"⟩]
    ∧ (activateCertificateCommand env node).clearedNodes = [node.parent]
    ∧ (activateCertificateCommand env node).refreshedNodes = [node.parent]
    ∧ (deactivateCertificateCommand env node).clearedNodes = [node.parent]
    ∧ (deactivateCertificateCommand env node).refreshedNodes = [node.parent]
    ∧ (revokeCertificateCommand env node).clearedNodes = [node.parent]
    ∧ (revokeCertificateCommand env node).refreshedNodes = [node.parent] := by
  rcases env with ⟨c, o⟩
  simp only at h
  subst h
  cases o <;>
    simp [activateCertificateCommand, deactivateCertificateCommand, revokeCertificateCommand,
      certUpdateCommand, IotCertificateNode.activate, IotCertificateNode.deactivate,
      IotCertificateNode.revoke]

theorem updateCert_commands_confirmed_witness :
    (activateCertificateCommand ⟨true, Except.error ⟨"InternalFailureException"⟩⟩
      ⟨⟨"arn:c", "certid", "INACTIVE", 0⟩, "parentNode"⟩).updateCalls =
      [⟨"certid", "ACTIVE"⟩] :=
  (updateCert_commands_confirmed ⟨true, Except.error ⟨"InternalFailureException"⟩⟩
    ⟨⟨"arn:c", "certid", "INACTIVE", 0⟩, "parentNode"⟩ rfl).1

/-- C9: for every `IotPolicyNode` whose parent is the policy folder node,
`detachPolicy` makes no `iot.detachPolicy` call and `detachPolicyCommand`
returns before prompting; when the parent is a certificate node,
`detachPolicy` calls `iot.detachPolicy` with the policy's name and the
parent certificate's ARN as target. -/
theorem detachPolicy_parent_cases (env : DetachCommandEnv) (node : IotPolicyNode) :
    (node.parent = IotPolicyParent.policyFolder →
      node.detachPolicy = [] ∧ detachPolicyCommand env node = ⟨[], [], [], [], false⟩)
    ∧ (∀ certificate : IotCertificate,
        node.parent = IotPolicyParent.certificateNode certificate →
        node.detachPolicy = [⟨node.policy.name, certificate.arn⟩]) := by
  constructor
  · intro h
    simp [IotPolicyNode.detachPolicy, detachPolicyCommand, h]
  · intro certificate h
    simp [IotPolicyNode.detachPolicy, h]

theorem detachPolicy_parent_cases_witness :
    IotPolicyNode.detachPolicy ⟨⟨"policy1", "arn:p1"⟩, IotPolicyParent.policyFolder⟩ = [] ∧
    detachPolicyCommand ⟨true, Except.ok ()⟩
      ⟨⟨"policy1", "arn:p1"⟩, IotPolicyParent.policyFolder⟩ = ⟨[], [], [], [], false⟩ :=
  (detachPolicy_parent_cases ⟨true, Except.ok ()⟩
    ⟨⟨"policy1", "arn:p1"⟩, IotPolicyParent.policyFolder⟩).1 rfl

/-- C10: `createCertificateCommand` never overwrites existing files: for
every chosen save location, if any of the three derived paths already
exists on disk the command returns before calling
`createCertificateAndKeys`, so no IoT API call is made and no file is
written. -/
theorem createCertificate_no_overwrite (env : CreateCertEnv) (folderLocation : String)
    (hc : env.confirmed = true) (hl : env.saveLocation = some folderLocation)
    (hex : env.fileExists (folderLocation ++ "-certificate.pem.crt") = true
      ∨ env.fileExists (folderLocation ++ "-private.pem.key") = true
      ∨ env.fileExists (folderLocation ++ "-public.pem.key") = true) :
    (createCertificateCommand env).createCalls = [] := by
  by_cases h1 : env.fileExists (folderLocation ++ "-certificate.pem.crt") = true
  · simp [createCertificateCommand, hc, hl, h1]
  · by_cases h2 : env.fileExists (folderLocation ++ "-private.pem.key") = true
    · simp [createCertificateCommand, hc, hl, h1, h2]
    · have h3 : env.fileExists (folderLocation ++ "-public.pem.key") = true := by
        rcases hex with h | h | h
        · exact absurd h h1
        · exact absurd h h2
        · exact h
      simp [createCertificateCommand, hc, hl, h1, h2, h3]

theorem createCertificate_no_overwrite_witness :
    (createCertificateCommand
      ⟨true, some "/home/user/keys/dev", fun _ => true, Except.ok ()⟩).createCalls = [] :=
  createCertificate_no_overwrite ⟨true, some "/home/user/keys/dev", fun _ => true, Except.ok ()⟩
    "/home/user/keys/dev" rfl rfl (Or.inl rfl)

/-! ## Round trip of the JSON embedding (towards C8)

`JSON.stringify` output parses back to the same value.  The development
follows the printer and parser shapes: whitespace lemmas, the quoted-string
round trip, well-formedness of parsed values, and the main induction. -/

theorem skipWs_cons_not_ws {u : Nat} (l : List Nat) (h : isWsUnit u = false) :
    skipWs (u :: l) = u :: l := by
  simp [skipWs, List.dropWhile_cons, h]

theorem skipWs_append_ws (w l : List Nat) (h : ∀ u ∈ w, isWsUnit u = true) :
    skipWs (w ++ l) = skipWs l := by
  induction w with
  | nil => rfl
  | cons u w ih =>
    have hu : isWsUnit u = true := h u (List.mem_cons_self u w)
    simp only [List.cons_append, skipWs, List.dropWhile_cons, hu, if_pos]
    exact ih fun v hv => h v (List.mem_cons_of_mem u hv)

theorem nSpaces_ws (n : Nat) : ∀ u ∈ nSpaces n, isWsUnit u = true := by
  intro u hu
  simp only [nSpaces, List.mem_replicate] at hu
  rw [hu.2]
  rfl

theorem gapLead_ws (gap ind : Nat) : ∀ u ∈ gapLead gap ind, isWsUnit u = true := by
  intro u hu
  unfold gapLead at hu
  by_cases hg : (gap == 0) = true
  · rw [if_pos hg] at hu
    simp at hu
  · rw [if_neg hg] at hu
    rcases List.mem_cons.mp hu with h | h
    · rw [h]; rfl
    · exact nSpaces_ws ind u h

theorem gapClose_ws (gap ind : Nat) : ∀ u ∈ gapClose gap ind, isWsUnit u = true := by
  intro u hu
  unfold gapClose at hu
  by_cases hg : (gap == 0) = true
  · rw [if_pos hg] at hu
    simp at hu
  · rw [if_neg hg] at hu
    rcases List.mem_cons.mp hu with h | h
    · rw [h]; rfl
    · exact nSpaces_ws ind u h

theorem colonSpace_ws (gap : Nat) :
    ∀ u ∈ (if (gap == 0) = true then ([] : List Nat) else [0x20]), isWsUnit u = true := by
  intro u hu
  by_cases hg : (gap == 0) = true
  · rw [if_pos hg] at hu
    simp at hu
  · rw [if_neg hg] at hu
    simp only [List.mem_singleton] at hu
    rw [hu]
    rfl

theorem isNumUnit_of_ws {u : Nat} (h : isWsUnit u = true) : isNumUnit u = false := by
  simp only [isWsUnit, Bool.or_eq_true, beq_iff_eq] at h
  rcases h with ((h | h) | h) | h <;> subst h <;> rfl

/-- Splitting `takeWhile`/`dropWhile` over an append whose left part
satisfies the predicate and whose right part starts refuting it. -/
theorem takeWhile_dropWhile_append {p : Nat → Bool} :
    ∀ (l r : List Nat), l.all p = true → (∀ u ∈ r.head?, p u = false) →
      (l ++ r).takeWhile p = l ∧ (l ++ r).dropWhile p = r := by
  intro l
  induction l with
  | nil =>
    intro r _ hr
    cases r with
    | nil => exact ⟨rfl, rfl⟩
    | cons u t =>
      have hu : p u = false := hr u (by simp)
      constructor
      · simp [List.takeWhile_cons, hu]
      · simp [List.dropWhile_cons, hu]
  | cons x l ih =>
    intro r hl hr
    simp only [List.all_cons, Bool.and_eq_true] at hl
    obtain ⟨hx, hl⟩ := hl
    obtain ⟨h1, h2⟩ := ih r hl hr
    constructor
    · simp [List.takeWhile_cons, hx, h1]
    · simp [List.dropWhile_cons, hx, h2]

theorem takeWhile_all {p : Nat → Bool} : ∀ l : List Nat, (l.takeWhile p).all p = true := by
  intro l
  induction l with
  | nil => rfl
  | cons u t ih =>
    by_cases hu : p u = true
    · simp [List.takeWhile_cons, hu, ih]
    · have hu' : p u = false := by revert hu; cases p u <;> simp
      simp [List.takeWhile_cons, hu']

theorem hexUnitVal_hexUnit (n : Nat) (h : n < 16) : hexUnitVal (hexUnit n) = some n := by
  interval_cases n <;> rfl

/-- Decoding the four emitted hex digits gives the unit back. -/
theorem hex4_decode (u : Nat) (h : u < 0x10000) :
    ∃ a b c d, hex4 u = [a, b, c, d] ∧
      ∃ va vb vc vd, hexUnitVal a = some va ∧ hexUnitVal b = some vb ∧
        hexUnitVal c = some vc ∧ hexUnitVal d = some vd ∧
        va * 4096 + vb * 256 + vc * 16 + vd = u := by
  refine ⟨_, _, _, _, rfl, u / 4096 % 16, u / 256 % 16, u / 16 % 16, u % 16,
    hexUnitVal_hexUnit _ (Nat.mod_lt _ (by norm_num)),
    hexUnitVal_hexUnit _ (Nat.mod_lt _ (by norm_num)),
    hexUnitVal_hexUnit _ (Nat.mod_lt _ (by norm_num)),
    hexUnitVal_hexUnit _ (Nat.mod_lt _ (by norm_num)), ?_⟩
  omega

theorem parseStrF_close (fp : Nat) (l : List Nat) :
    parseStrF (fp + 1) (0x22 :: l) = some ([], l) := by
  simp [parseStrF]

theorem parseStrF_verbatim (fp u : Nat) (l : List Nat) (h1 : u ≠ 0x22) (h2 : u ≠ 0x5C)
    (h3 : 0x20 ≤ u) :
    parseStrF (fp + 1) (u :: l) = (parseStrF fp l).map (fun p => (u :: p.1, p.2)) := by
  simp only [parseStrF]
  rw [if_neg (by simp [h1]), if_neg (by simp [h2]), if_neg (by omega)]

theorem parseStrF_unicode (fp u : Nat) (l : List Nat) (h : u < 0x10000) :
    parseStrF (fp + 1) (0x5C :: 0x75 :: (hex4 u ++ l)) =
      (parseStrF fp l).map (fun p => (u :: p.1, p.2)) := by
  obtain ⟨a, b, c, d, h4, va, vb, vc, vd, ha, hb, hc, hd, hsum⟩ := hex4_decode u h
  rw [h4]
  simp only [parseStrF, List.cons_append, List.nil_append]
  rw [if_neg (by decide), if_pos (by decide)]
  rw [if_neg (by decide), if_neg (by decide), if_neg (by decide), if_neg (by decide),
    if_neg (by decide), if_neg (by decide), if_neg (by decide), if_neg (by decide),
    if_pos (by decide)]
  simp only [ha, hb, hc, hd, hsum]

/-- The quoted body is at least as long as its source. -/
theorem quoteBodyF_length : ∀ (n : Nat) (s : List Nat) (fq : Nat), s.length ≤ n →
    s.length ≤ fq → s.length ≤ (quoteBodyF fq s).length := by
  intro n
  induction n with
  | zero =>
    intro s fq hn _
    have hs : s = [] := List.eq_nil_of_length_eq_zero (by omega)
    subst hs
    simp
  | succ n ih =>
    intro s fq hn hfq
    cases s with
    | nil => simp
    | cons u rest =>
      rw [List.length_cons] at hn hfq
      obtain ⟨fq', rfl⟩ : ∃ fq', fq = fq' + 1 := ⟨fq - 1, by omega⟩
      have hrest : rest.length ≤ n := by omega
      have hrest2 : rest.length ≤ fq' := by omega
      have ihrest := ih rest fq' hrest hrest2
      simp only [quoteBodyF]
      by_cases c1 : (u == 0x22) = true
      · rw [if_pos c1]; simp; omega
      rw [if_neg c1]
      by_cases c2 : (u == 0x5C) = true
      · rw [if_pos c2]; simp; omega
      rw [if_neg c2]
      by_cases c3 : (u == 0x08) = true
      · rw [if_pos c3]; simp; omega
      rw [if_neg c3]
      by_cases c4 : (u == 0x0C) = true
      · rw [if_pos c4]; simp; omega
      rw [if_neg c4]
      by_cases c5 : (u == 0x0A) = true
      · rw [if_pos c5]; simp; omega
      rw [if_neg c5]
      by_cases c6 : (u == 0x0D) = true
      · rw [if_pos c6]; simp; omega
      rw [if_neg c6]
      by_cases c7 : (u == 0x09) = true
      · rw [if_pos c7]; simp; omega
      rw [if_neg c7]
      by_cases c8 : u < 0x20
      · rw [if_pos c8]; simp [hex4]; omega
      rw [if_neg c8]
      by_cases c9 : isHighSurrogate u = true
      · rw [if_pos c9]
        cases rest with
        | nil => simp [hex4]
        | cons v rest2 =>
          rw [List.length_cons] at hn hfq hrest hrest2 ihrest
          by_cases c10 : isLowSurrogate v = true
          · have hr2 : rest2.length ≤ n := by omega
            have hr2f : rest2.length ≤ fq' := by omega
            have ih2 := ih rest2 fq' hr2 hr2f
            simp only [c10, if_true, List.length_cons]
            omega
          · have c10' : isLowSurrogate v = false := by
              revert c10; cases isLowSurrogate v <;> simp
            simp only [c10', Bool.false_eq_true, if_false, hex4, List.length_cons,
              List.length_append, List.length_nil]
            omega
      rw [if_neg c9]
      by_cases c11 : isLowSurrogate u = true
      · rw [if_pos c11]; simp [hex4]; omega
      rw [if_neg c11]
      simp
      omega

theorem quoteBodyF_nil (fq : Nat) : quoteBodyF fq [] = [] := by
  cases fq <;> rfl

/-- One parser step for each single-character escape the quoter emits. -/
theorem parseStrF_escape_pair (fp e c : Nat) (l : List Nat)
    (h : (e = 0x22 ∧ c = 0x22) ∨ (e = 0x5C ∧ c = 0x5C) ∨ (e = 0x62 ∧ c = 0x08) ∨
      (e = 0x66 ∧ c = 0x0C) ∨ (e = 0x6E ∧ c = 0x0A) ∨ (e = 0x72 ∧ c = 0x0D) ∨
      (e = 0x74 ∧ c = 0x09)) :
    parseStrF (fp + 1) (0x5C :: e :: l) = (parseStrF fp l).map (fun p => (c :: p.1, p.2)) := by
  rcases h with ⟨he, hc⟩ | ⟨he, hc⟩ | ⟨he, hc⟩ | ⟨he, hc⟩ | ⟨he, hc⟩ | ⟨he, hc⟩ | ⟨he, hc⟩ <;>
    subst he <;> subst hc <;> rfl

set_option maxHeartbeats 1600000 in
/-- Reading back a quoted string body gives the source units and leaves the
input after the closing quote untouched. -/
theorem parseStrF_quoteBodyF : ∀ (n : Nat) (s : List Nat), s.length ≤ n →
    ∀ (fq fp : Nat) (rest : List Nat), s.length ≤ fq → s.length + 1 ≤ fp →
    parseStrF fp (quoteBodyF fq s ++ 0x22 :: rest) = some (s, rest) := by
  intro n
  induction n with
  | zero =>
    intro s hn fq fp rest _ hfp
    have hs : s = [] := List.eq_nil_of_length_eq_zero (by omega)
    subst hs
    obtain ⟨fp', rfl⟩ : ∃ fp', fp = fp' + 1 := ⟨fp - 1, by omega⟩
    rw [quoteBodyF_nil, List.nil_append, parseStrF_close]
  | succ n ih =>
    intro s hn fq fp rest hfq hfp
    cases s with
    | nil =>
      obtain ⟨fp', rfl⟩ : ∃ fp', fp = fp' + 1 := ⟨fp - 1, by omega⟩
      rw [quoteBodyF_nil, List.nil_append, parseStrF_close]
    | cons u rest' =>
      rw [List.length_cons] at hn hfq hfp
      obtain ⟨fq', rfl⟩ : ∃ fq', fq = fq' + 1 := ⟨fq - 1, by omega⟩
      obtain ⟨fp', rfl⟩ : ∃ fp', fp = fp' + 1 := ⟨fp - 1, by omega⟩
      have ihr := ih rest' (by omega) fq' fp' rest (by omega) (by omega)
      simp only [quoteBodyF]
      by_cases c1 : (u == 0x22) = true
      · simp only [beq_iff_eq] at c1
        subst c1
        rw [if_pos (by decide), List.cons_append, List.cons_append,
          parseStrF_escape_pair fp' 0x22 0x22 _ (Or.inl ⟨rfl, rfl⟩), ihr]
        rfl
      rw [if_neg c1]
      by_cases c2 : (u == 0x5C) = true
      · simp only [beq_iff_eq] at c2
        subst c2
        rw [if_pos (by decide), List.cons_append, List.cons_append,
          parseStrF_escape_pair fp' 0x5C 0x5C _ (Or.inr (Or.inl ⟨rfl, rfl⟩)), ihr]
        rfl
      rw [if_neg c2]
      by_cases c3 : (u == 0x08) = true
      · simp only [beq_iff_eq] at c3
        subst c3
        rw [if_pos (by decide), List.cons_append, List.cons_append,
          parseStrF_escape_pair fp' 0x62 0x08 _ (by tauto), ihr]
        rfl
      rw [if_neg c3]
      by_cases c4 : (u == 0x0C) = true
      · simp only [beq_iff_eq] at c4
        subst c4
        rw [if_pos (by decide), List.cons_append, List.cons_append,
          parseStrF_escape_pair fp' 0x66 0x0C _ (by tauto), ihr]
        rfl
      rw [if_neg c4]
      by_cases c5 : (u == 0x0A) = true
      · simp only [beq_iff_eq] at c5
        subst c5
        rw [if_pos (by decide), List.cons_append, List.cons_append,
          parseStrF_escape_pair fp' 0x6E 0x0A _ (by tauto), ihr]
        rfl
      rw [if_neg c5]
      by_cases c6 : (u == 0x0D) = true
      · simp only [beq_iff_eq] at c6
        subst c6
        rw [if_pos (by decide), List.cons_append, List.cons_append,
          parseStrF_escape_pair fp' 0x72 0x0D _ (by tauto), ihr]
        rfl
      rw [if_neg c6]
      by_cases c7 : (u == 0x09) = true
      · simp only [beq_iff_eq] at c7
        subst c7
        rw [if_pos (by decide), List.cons_append, List.cons_append,
          parseStrF_escape_pair fp' 0x74 0x09 _ (by tauto), ihr]
        rfl
      rw [if_neg c7]
      by_cases c8 : u < 0x20
      · rw [if_pos c8, List.cons_append, List.cons_append, List.append_assoc,
          parseStrF_unicode fp' u _ (by omega), ihr]
        rfl
      rw [if_neg c8]
      by_cases c9 : isHighSurrogate u = true
      · rw [if_pos c9]
        simp only [isHighSurrogate, Bool.and_eq_true, decide_eq_true_eq] at c9
        cases rest' with
        | nil =>
          obtain ⟨fp'', rfl⟩ : ∃ fp'', fp' = fp'' + 1 := ⟨fp' - 1, by omega⟩
          rw [List.cons_append, List.cons_append,
            parseStrF_unicode (fp'' + 1) u _ (by omega), parseStrF_close]
          rfl
        | cons v rest2 =>
          rw [List.length_cons] at hn hfq hfp
          by_cases c10 : isLowSurrogate v = true
          · have c10n := c10
            simp only [isLowSurrogate, Bool.and_eq_true, decide_eq_true_eq] at c10n
            simp only [c10, if_true]
            obtain ⟨fp'', rfl⟩ : ∃ fp'', fp' = fp'' + 1 := ⟨fp' - 1, by omega⟩
            have ihr2 := ih rest2 (by omega) fq' fp'' rest (by omega) (by omega)
            rw [List.cons_append, List.cons_append,
              parseStrF_verbatim (fp'' + 1) u _ (by omega) (by omega) (by omega),
              parseStrF_verbatim fp'' v _ (by omega) (by omega) (by omega), ihr2]
            rfl
          · have c10' : isLowSurrogate v = false := by
              revert c10; cases isLowSurrogate v <;> simp
            simp only [c10', Bool.false_eq_true, if_false]
            rw [List.cons_append, List.cons_append, List.append_assoc,
              parseStrF_unicode fp' u _ (by omega), ihr]
            rfl
      rw [if_neg c9]
      by_cases c11 : isLowSurrogate u = true
      · rw [if_pos c11]
        simp only [isLowSurrogate, Bool.and_eq_true, decide_eq_true_eq] at c11
        rw [List.cons_append, List.cons_append, List.append_assoc,
          parseStrF_unicode fp' u _ (by omega), ihr]
        rfl
      rw [if_neg c11]
      have hne1 : u ≠ 0x22 := by intro h; exact c1 (by simp [h])
      have hne2 : u ≠ 0x5C := by intro h; exact c2 (by simp [h])
      rw [List.cons_append, parseStrF_verbatim fp' u _ hne1 hne2 (by omega), ihr]
      rfl

/-- The wrapped string parser on the wrapped quoter output. -/
theorem parseStr_quoteBody (s rest : List Nat) :
    parseStr (quoteBody s ++ 0x22 :: rest) = some (s, rest) := by
  have hlen := quoteBodyF_length s.length s s.length le_rfl le_rfl
  unfold parseStr quoteBody
  apply parseStrF_quoteBodyF s.length s le_rfl s.length _ rest le_rfl
  rw [List.length_append, List.length_cons]
  unfold quoteBody at *
  omega

theorem hasKey_setKey (q k : List Nat) (v : JsonValue) :
    ∀ fs, hasKey q (setKey k v fs) = hasKey q fs := by
  intro fs
  induction fs with
  | nil => rfl
  | cons kv fs ih =>
    obtain ⟨k', v'⟩ := kv
    by_cases h : (k' == k) = true
    · simp [setKey, h, hasKey]
    · simp only [setKey, if_neg h, hasKey, ih]

theorem noDupKeys_setKey (k : List Nat) (v : JsonValue) :
    ∀ fs, noDupKeys fs = true → noDupKeys (setKey k v fs) = true := by
  intro fs
  induction fs with
  | nil => intro _; rfl
  | cons kv fs ih =>
    obtain ⟨k', v'⟩ := kv
    intro h
    simp only [noDupKeys, Bool.and_eq_true] at h
    by_cases hk : (k' == k) = true
    · simp only [setKey, if_pos hk, noDupKeys, Bool.and_eq_true]
      exact h
    · simp only [setKey, if_neg hk, noDupKeys, Bool.and_eq_true, hasKey_setKey]
      exact ⟨h.1, ih h.2⟩

theorem hasKey_append (q : List Nat) :
    ∀ l1 l2, hasKey q (l1 ++ l2) = (hasKey q l1 || hasKey q l2) := by
  intro l1 l2
  induction l1 with
  | nil => simp [hasKey]
  | cons kv l1 ih =>
    obtain ⟨k', v'⟩ := kv
    simp [hasKey, ih, Bool.or_assoc]

theorem noDupKeys_append_single (k : List Nat) (v : JsonValue) :
    ∀ acc, noDupKeys acc = true → hasKey k acc = false →
      noDupKeys (acc ++ [(k, v)]) = true := by
  intro acc
  induction acc with
  | nil => intro _ _; rfl
  | cons kv acc ih =>
    obtain ⟨k0, v0⟩ := kv
    intro hnd hnk
    simp only [noDupKeys, Bool.and_eq_true] at hnd
    simp only [hasKey, Bool.or_eq_false_iff] at hnk
    simp only [List.cons_append, noDupKeys, Bool.and_eq_true]
    refine ⟨?_, ih hnd.2 hnk.2⟩
    have h0 : hasKey k0 acc = false := by simpa using hnd.1
    have hk0 : (k == k0) = false := by
      have := hnk.1
      simp only [beq_eq_false_iff_ne] at this ⊢
      exact fun hkk => this hkk.symm
    simp [hasKey_append, h0, hasKey, hk0]

theorem addField_noDup (acc : List (List Nat × JsonValue)) (kv : List Nat × JsonValue)
    (h : noDupKeys acc = true) : noDupKeys (addField acc kv) = true := by
  unfold addField
  by_cases hk : hasKey kv.1 acc = true
  · rw [if_pos hk]
    exact noDupKeys_setKey kv.1 kv.2 acc h
  · rw [if_neg hk]
    exact noDupKeys_append_single kv.1 kv.2 acc h (by revert hk; cases hasKey kv.1 acc <;> simp)

theorem foldl_addField_noDup :
    ∀ (ps : List (List Nat × JsonValue)) (acc : List (List Nat × JsonValue)),
      noDupKeys acc = true → noDupKeys (List.foldl addField acc ps) = true := by
  intro ps
  induction ps with
  | nil => intro acc h; exact h
  | cons kv ps ih =>
    intro acc h
    exact ih (addField acc kv) (addField_noDup acc kv h)

theorem buildObj_noDup (ps : List (List Nat × JsonValue)) :
    noDupKeys (buildObj ps) = true :=
  foldl_addField_noDup ps [] rfl

theorem mem_setKey (kv' : List Nat × JsonValue) (k : List Nat) (v : JsonValue) :
    ∀ fs, kv' ∈ setKey k v fs → kv' ∈ fs ∨ kv'.2 = v := by
  intro fs
  induction fs with
  | nil => intro h; simp [setKey] at h
  | cons kv0 fs ih =>
    obtain ⟨k0, v0⟩ := kv0
    intro h
    by_cases hk : (k0 == k) = true
    · rw [setKey, if_pos hk] at h
      rcases List.mem_cons.mp h with h | h
      · right; rw [h]
      · left; exact List.mem_cons_of_mem _ h
    · rw [setKey, if_neg hk] at h
      rcases List.mem_cons.mp h with h | h
      · left; rw [h]; exact List.mem_cons_self _ _
      · rcases ih h with h | h
        · left; exact List.mem_cons_of_mem _ h
        · right; exact h

theorem mem_addField (kv' kv : List Nat × JsonValue) (acc : List (List Nat × JsonValue))
    (h : kv' ∈ addField acc kv) : kv' ∈ acc ∨ kv'.2 = kv.2 := by
  unfold addField at h
  by_cases hk : hasKey kv.1 acc = true
  · rw [if_pos hk] at h
    exact mem_setKey kv' kv.1 kv.2 acc h
  · rw [if_neg hk] at h
    rcases List.mem_append.mp h with h | h
    · left; exact h
    · right
      simp only [List.mem_singleton] at h
      rw [h]

theorem wfFields_iff :
    ∀ fs : List (List Nat × JsonValue),
      wfFields fs = true ↔ ∀ kv ∈ fs, wfJson kv.2 = true := by
  intro fs
  induction fs with
  | nil => simp [wfFields]
  | cons kv fs ih =>
    obtain ⟨k, v⟩ := kv
    simp only [wfFields, Bool.and_eq_true, ih, List.mem_cons]
    constructor
    · rintro ⟨h1, h2⟩ kv' (h | h)
      · rw [h]; exact h1
      · exact h2 kv' h
    · intro h
      exact ⟨h (k, v) (Or.inl rfl), fun kv' h' => h kv' (Or.inr h')⟩

theorem foldl_addField_wf :
    ∀ (ps acc : List (List Nat × JsonValue)),
      (∀ kv ∈ acc, wfJson kv.2 = true) → (∀ kv ∈ ps, wfJson kv.2 = true) →
      ∀ kv ∈ List.foldl addField acc ps, wfJson kv.2 = true := by
  intro ps
  induction ps with
  | nil => intro acc hacc _ kv h; exact hacc kv h
  | cons kv0 ps ih =>
    intro acc hacc hps kv h
    refine ih (addField acc kv0) ?_ (fun kv' h' => hps kv' (List.mem_cons_of_mem _ h')) kv h
    intro kv' h'
    rcases mem_addField kv' kv0 acc h' with h' | h'
    · exact hacc kv' h'
    · rw [h']
      exact hps kv0 (List.mem_cons_self _ _)

theorem buildObj_wf (ps : List (List Nat × JsonValue)) (h : wfFields ps = true) :
    wfFields (buildObj ps) = true := by
  rw [wfFields_iff]
  exact foldl_addField_wf ps [] (by simp) ((wfFields_iff ps).mp h)

theorem noDupKeys_append_cons (k : List Nat) (v : JsonValue) :
    ∀ (acc fs : List (List Nat × JsonValue)),
      noDupKeys (acc ++ (k, v) :: fs) = true → hasKey k acc = false := by
  intro acc
  induction acc with
  | nil => intro fs _; rfl
  | cons kv0 acc ih =>
    obtain ⟨k0, v0⟩ := kv0
    intro fs h
    simp only [List.cons_append, noDupKeys, Bool.and_eq_true] at h
    simp only [hasKey, Bool.or_eq_false_iff]
    refine ⟨?_, ih fs h.2⟩
    have h1 : hasKey k0 (acc ++ (k, v) :: fs) = false := by simpa using h.1
    rw [hasKey_append] at h1
    simp only [Bool.or_eq_false_iff, hasKey] at h1
    have h2 := h1.2.1
    simp only [beq_eq_false_iff_ne] at h2 ⊢
    exact fun hc => h2 hc.symm

theorem foldl_addField_of_noDup :
    ∀ (ps acc : List (List Nat × JsonValue)), noDupKeys (acc ++ ps) = true →
      List.foldl addField acc ps = acc ++ ps := by
  intro ps
  induction ps with
  | nil => intro acc _; simp
  | cons kv ps ih =>
    obtain ⟨k, v⟩ := kv
    intro acc h
    have hnk : hasKey k acc = false := noDupKeys_append_cons k v acc ps h
    have hadd : addField acc (k, v) = acc ++ [(k, v)] := by
      unfold addField
      rw [if_neg (by rw [hnk]; simp)]
    rw [List.foldl_cons, hadd, ih (acc ++ [(k, v)]) (by simpa using h)]
    simp

/-- Parsed members with distinct keys build back to themselves. -/
theorem buildObj_of_noDup (ps : List (List Nat × JsonValue)) (h : noDupKeys ps = true) :
    buildObj ps = ps :=
  foldl_addField_of_noDup ps [] (by simpa using h)

/-- Everything the parser returns is well-formed: number tokens lex back
and validate, and object keys are unique. -/
theorem parse_wf : ∀ fuel : Nat,
    (∀ s v r, parseVal fuel s = some (v, r) → wfJson v = true)
    ∧ (∀ s v r, parseArr fuel s = some (v, r) → wfJson v = true)
    ∧ (∀ s vs r, parseElems fuel s = some (vs, r) → wfElems vs = true)
    ∧ (∀ s v r, parseObj fuel s = some (v, r) → wfJson v = true)
    ∧ (∀ s ps r, parseFields fuel s = some (ps, r) → wfFields ps = true) := by
  intro fuel
  induction fuel with
  | zero =>
    refine ⟨?_, ?_, ?_, ?_, ?_⟩ <;> intro s a r h <;>
      simp [parseVal, parseArr, parseElems, parseObj, parseFields] at h
  | succ fuel ih =>
    obtain ⟨ihV, ihA, ihE, ihO, ihF⟩ := ih
    refine ⟨?_, ?_, ?_, ?_, ?_⟩
    · intro s v r h
      simp only [parseVal] at h
      rcases hsk : skipWs s with _ | ⟨u, rest⟩
      · simp only [hsk] at h
        exact absurd h (by simp)
      simp only [hsk] at h
      by_cases c1 : (u == 0x7B) = true
      · rw [if_pos c1] at h
        exact ihO _ _ _ h
      rw [if_neg c1] at h
      by_cases c2 : (u == 0x5B) = true
      · rw [if_pos c2] at h
        exact ihA _ _ _ h
      rw [if_neg c2] at h
      by_cases c3 : (u == 0x22) = true
      · rw [if_pos c3] at h
        cases hps : parseStr rest with
        | none => simp only [hps] at h; exact absurd h (by simp)
        | some p =>
          obtain ⟨t, r'⟩ := p
          simp only [hps, Option.some.injEq, Prod.mk.injEq] at h
          rw [← h.1]
          rfl
      rw [if_neg c3] at h
      by_cases c4 : (u == 0x74) = true
      · rw [if_pos c4] at h
        split at h
        · simp only [Option.some.injEq, Prod.mk.injEq] at h
          rw [← h.1]
          rfl
        · simp at h
      rw [if_neg c4] at h
      by_cases c5 : (u == 0x66) = true
      · rw [if_pos c5] at h
        split at h
        · simp only [Option.some.injEq, Prod.mk.injEq] at h
          rw [← h.1]
          rfl
        · simp at h
      rw [if_neg c5] at h
      by_cases c6 : (u == 0x6E) = true
      · rw [if_pos c6] at h
        split at h
        · simp only [Option.some.injEq, Prod.mk.injEq] at h
          rw [← h.1]
          rfl
        · simp at h
      rw [if_neg c6] at h
      by_cases c7 : (u == 0x2D || isDigitUnit u) = true
      · rw [if_pos c7] at h
        split at h
        · rename_i hvn
          simp only [Option.some.injEq, Prod.mk.injEq] at h
          rw [← h.1]
          have hu : isNumUnit u = true := by
            simp only [isNumUnit, isDigitUnit, Bool.or_eq_true, Bool.and_eq_true,
              decide_eq_true_eq, beq_iff_eq] at c7 ⊢
            omega
          have htw : List.takeWhile isNumUnit (u :: rest) =
              u :: List.takeWhile isNumUnit rest := by
            simp [List.takeWhile_cons, hu]
          simp only [wfJson, Bool.and_eq_true]
          refine ⟨⟨hvn, takeWhile_all _⟩, ?_⟩
          rw [htw]
          simpa using c7
        · simp at h
      · rw [if_neg c7] at h
        simp at h
    · intro s v r h
      simp only [parseArr] at h
      by_cases c : ((skipWs s).head? == some 0x5D) = true
      · rw [if_pos c] at h
        simp only [Option.some.injEq, Prod.mk.injEq] at h
        rw [← h.1]
        rfl
      · rw [if_neg c] at h
        cases hpe : parseElems fuel s with
        | none => simp only [hpe] at h; exact absurd h (by simp)
        | some q =>
          obtain ⟨vs, r'⟩ := q
          simp only [hpe, Option.some.injEq, Prod.mk.injEq] at h
          rw [← h.1]
          simpa [wfJson] using ihE _ _ _ hpe
    · intro s vs r h
      simp only [parseElems] at h
      cases hpv : parseVal fuel s with
      | none => simp only [hpv] at h; exact absurd h (by simp)
      | some p =>
        obtain ⟨v0, r0⟩ := p
        simp only [hpv] at h
        by_cases c : ((skipWs r0).head? == some 0x2C) = true
        · rw [if_pos c] at h
          cases hpe : parseElems fuel (skipWs r0).tail with
          | none => simp only [hpe] at h; exact absurd h (by simp)
          | some q =>
            obtain ⟨vs0, r3⟩ := q
            simp only [hpe, Option.some.injEq, Prod.mk.injEq] at h
            rw [← h.1]
            simp only [wfElems, Bool.and_eq_true]
            exact ⟨ihV _ _ _ hpv, ihE _ _ _ hpe⟩
        · rw [if_neg c] at h
          by_cases c2 : ((skipWs r0).head? == some 0x5D) = true
          · rw [if_pos c2] at h
            simp only [Option.some.injEq, Prod.mk.injEq] at h
            rw [← h.1]
            simp [wfElems, ihV _ _ _ hpv]
          · rw [if_neg c2] at h
            simp at h
    · intro s v r h
      simp only [parseObj] at h
      by_cases c : ((skipWs s).head? == some 0x7D) = true
      · rw [if_pos c] at h
        simp only [Option.some.injEq, Prod.mk.injEq] at h
        rw [← h.1]
        rfl
      · rw [if_neg c] at h
        cases hpf : parseFields fuel s with
        | none => simp only [hpf] at h; exact absurd h (by simp)
        | some q =>
          obtain ⟨ps, r'⟩ := q
          simp only [hpf, Option.some.injEq, Prod.mk.injEq] at h
          rw [← h.1]
          simp only [wfJson, Bool.and_eq_true]
          exact ⟨buildObj_noDup ps, buildObj_wf ps (ihF _ _ _ hpf)⟩
    · intro s ps r h
      simp only [parseFields] at h
      by_cases c : ((skipWs s).head? == some 0x22) = true
      · rw [if_pos c] at h
        cases hps : parseStr (skipWs s).tail with
        | none => simp only [hps] at h; exact absurd h (by simp)
        | some p =>
          obtain ⟨k, r2⟩ := p
          simp only [hps] at h
          by_cases c2 : ((skipWs r2).head? == some 0x3A) = true
          · rw [if_pos c2] at h
            cases hpv : parseVal fuel (skipWs r2).tail with
            | none => simp only [hpv] at h; exact absurd h (by simp)
            | some q =>
              obtain ⟨v0, r4⟩ := q
              simp only [hpv] at h
              by_cases c3 : ((skipWs r4).head? == some 0x2C) = true
              · rw [if_pos c3] at h
                cases hpf : parseFields fuel (skipWs r4).tail with
                | none => simp only [hpf] at h; exact absurd h (by simp)
                | some q2 =>
                  obtain ⟨fs0, r6⟩ := q2
                  simp only [hpf, Option.some.injEq, Prod.mk.injEq] at h
                  rw [← h.1]
                  simp only [wfFields, Bool.and_eq_true]
                  exact ⟨ihV _ _ _ hpv, ihF _ _ _ hpf⟩
              · rw [if_neg c3] at h
                by_cases c4 : ((skipWs r4).head? == some 0x7D) = true
                · rw [if_pos c4] at h
                  simp only [Option.some.injEq, Prod.mk.injEq] at h
                  rw [← h.1]
                  simp [wfFields, ihV _ _ _ hpv]
                · rw [if_neg c4] at h
                  simp at h
          · rw [if_neg c2] at h
            simp at h
      · rw [if_neg c] at h
        simp at h

theorem fsize_pos (v : JsonValue) : 1 ≤ fsize v := by
  cases v <;> simp [fsize] <;> omega

/-- A well-formed number token's head unit. -/
theorem wf_num_head {lit : List Nat} (h : wfJson (JsonValue.num lit) = true) :
    ∃ u0 lit', lit = u0 :: lit' ∧ (u0 = 0x2D ∨ (0x30 ≤ u0 ∧ u0 ≤ 0x39)) := by
  simp only [wfJson, Bool.and_eq_true] at h
  cases lit with
  | nil => simp at h
  | cons u0 lit' =>
    refine ⟨u0, lit', rfl, ?_⟩
    have h2 := h.2
    simp only [List.head?_cons, Bool.or_eq_true, beq_iff_eq, isDigitUnit, Bool.and_eq_true,
      decide_eq_true_eq] at h2
    omega

/-- The serialization of a well-formed value starts with a unit that is
neither whitespace nor a closing bracket. -/
theorem printVal_head (gap ind : Nat) (v : JsonValue) (hwf : wfJson v = true) :
    ∃ u t, printVal gap ind v = u :: t ∧ isWsUnit u = false ∧ (u == 0x5D) = false := by
  cases v with
  | null => exact ⟨0x6E, _, rfl, rfl, rfl⟩
  | bool b =>
    cases b
    · exact ⟨0x66, _, rfl, rfl, rfl⟩
    · exact ⟨0x74, _, rfl, rfl, rfl⟩
  | num lit =>
    obtain ⟨u0, lit', rfl, hu0⟩ := wf_num_head hwf
    refine ⟨u0, lit', rfl, ?_, ?_⟩
    · simp only [isWsUnit, Bool.or_eq_false_iff, beq_eq_false_iff_ne]
      omega
    · simp only [beq_eq_false_iff_ne]
      omega
  | str s => exact ⟨0x22, _, rfl, rfl, rfl⟩
  | arr xs =>
    cases xs
    · exact ⟨0x5B, _, rfl, rfl, rfl⟩
    · exact ⟨0x5B, _, rfl, rfl, rfl⟩
  | obj fs =>
    cases fs with
    | nil => exact ⟨0x7B, _, rfl, rfl, rfl⟩
    | cons kv fs =>
      obtain ⟨k, v⟩ := kv
      exact ⟨0x7B, _, rfl, rfl, rfl⟩

theorem numGuard_cons (v : JsonValue) (u : Nat) (l : List Nat) (hu : isNumUnit u = false) :
    numGuard v (u :: l) = true := by
  cases v <;> simp [numGuard, hu]

theorem numGuard_ws_cons (v : JsonValue) (ws : List Nat)
    (hws : ∀ u ∈ ws, isWsUnit u = true) (c : Nat) (hc : isNumUnit c = false) (l : List Nat) :
    numGuard v (ws ++ c :: l) = true := by
  cases ws with
  | nil => exact numGuard_cons v c l hc
  | cons w t =>
    exact numGuard_cons v w _ (isNumUnit_of_ws (hws w (List.mem_cons_self w t)))

/-- Leading whitespace does not change what `parseVal` reads. -/
theorem parseVal_ws (fuel : Nat) (ws l : List Nat) (h : ∀ u ∈ ws, isWsUnit u = true) :
    parseVal (fuel + 1) (ws ++ l) = parseVal (fuel + 1) l := by
  simp only [parseVal, skipWs_append_ws ws l h]

theorem parseVal_bracket (f : Nat) (l : List Nat) :
    parseVal (f + 1) (0x5B :: l) = parseArr f l := rfl

theorem parseVal_brace (f : Nat) (l : List Nat) :
    parseVal (f + 1) (0x7B :: l) = parseObj f l := rfl

theorem head_beq_false {u c : Nat} (h : (u == c) = false) (t : List Nat) :
    ((u :: t).head? == some c) = false := by
  simp only [List.head?_cons]
  exact h

set_option maxHeartbeats 3200000 in
/-- The round trip: parsing what the printer emitted gives the value back,
with any surrounding whitespace and trailing input handled as the grammar
says.  The three components follow the printer's value/array/object shapes
and are proved by strong induction on the fuel the parser needs. -/
theorem roundTrip : ∀ n : Nat,
    (∀ v : JsonValue, fsize v ≤ n → ∀ (gap ind fuel : Nat) (ws rest : List Nat),
      (∀ u ∈ ws, isWsUnit u = true) → wfJson v = true → numGuard v rest = true →
      fsize v ≤ fuel →
      parseVal fuel (ws ++ (printVal gap ind v ++ rest)) = some (v, rest))
    ∧ (∀ (x : JsonValue) (xs : List JsonValue), felems (x :: xs) ≤ n →
      ∀ (gap ind2 fuel : Nat) (ws1 ws2 rest : List Nat),
      (∀ u ∈ ws1, isWsUnit u = true) → (∀ u ∈ ws2, isWsUnit u = true) →
      wfElems (x :: xs) = true → felems (x :: xs) ≤ fuel →
      parseElems fuel (ws1 ++ (printVal gap ind2 x ++ (printRest gap ind2 xs ++
        (ws2 ++ 0x5D :: rest)))) = some (x :: xs, rest))
    ∧ (∀ (k : List Nat) (v : JsonValue) (fs : List (List Nat × JsonValue)),
      ffields ((k, v) :: fs) ≤ n →
      ∀ (gap ind2 fuel : Nat) (ws1 ws3 ws2 rest : List Nat),
      (∀ u ∈ ws1, isWsUnit u = true) → (∀ u ∈ ws3, isWsUnit u = true) →
      (∀ u ∈ ws2, isWsUnit u = true) →
      wfFields ((k, v) :: fs) = true → ffields ((k, v) :: fs) ≤ fuel →
      parseFields fuel (ws1 ++ (quoteStr k ++ 0x3A :: (ws3 ++ (printVal gap ind2 v ++
        (printFields gap ind2 fs ++ (ws2 ++ 0x7D :: rest)))))) =
        some ((k, v) :: fs, rest)) := by
  intro n
  induction n using Nat.strong_induction_on with
  | _ n ih =>
  refine ⟨?_, ?_, ?_⟩
  · -- values
    intro v hn gap ind fuel ws rest hws hwf hguard hfuel
    obtain ⟨f, rfl⟩ : ∃ f, fuel = f + 1 := ⟨fuel - 1, by have := fsize_pos v; omega⟩
    rw [parseVal_ws f ws _ hws]
    cases v with
    | null => rfl
    | bool b => cases b <;> rfl
    | num lit =>
      obtain ⟨u0, lit', rfl, hu0⟩ := wf_num_head hwf
      simp only [wfJson, Bool.and_eq_true] at hwf
      obtain ⟨⟨hvn, hall⟩, hhead⟩ := hwf
      have hg : ∀ u ∈ rest.head?, isNumUnit u = false := by
        intro u hu
        cases rest with
        | nil => simp at hu
        | cons r0 t =>
          simp only [List.head?_cons, Option.mem_def, Option.some.injEq] at hu
          subst hu
          simpa [numGuard] using hguard
      have htk := takeWhile_dropWhile_append (p := isNumUnit) (u0 :: lit') rest hall hg
      simp only [List.cons_append] at htk
      have hnws : isWsUnit u0 = false := by
        simp only [isWsUnit, Bool.or_eq_false_iff, beq_eq_false_iff_ne]
        omega
      simp only [parseVal]
      rw [show printVal gap ind (JsonValue.num (u0 :: lit')) ++ rest =
        u0 :: (lit' ++ rest) from rfl, skipWs_cons_not_ws _ hnws]
      have d1 : (u0 == 0x7B) = false := by simp only [beq_eq_false_iff_ne]; omega
      have d2 : (u0 == 0x5B) = false := by simp only [beq_eq_false_iff_ne]; omega
      have d3 : (u0 == 0x22) = false := by simp only [beq_eq_false_iff_ne]; omega
      have d4 : (u0 == 0x74) = false := by simp only [beq_eq_false_iff_ne]; omega
      have d5 : (u0 == 0x66) = false := by simp only [beq_eq_false_iff_ne]; omega
      have d6 : (u0 == 0x6E) = false := by simp only [beq_eq_false_iff_ne]; omega
      have c7 : (u0 == 0x2D || isDigitUnit u0) = true := by
        simp only [Bool.or_eq_true, beq_iff_eq, isDigitUnit, Bool.and_eq_true,
          decide_eq_true_eq]
        omega
      simp only [d1, d2, d3, d4, d5, d6, c7, Bool.false_eq_true, if_false, if_true,
        htk.1, htk.2, hvn]
    | str s =>
      simp only [parseVal]
      rw [show printVal gap ind (JsonValue.str s) ++ rest =
          0x22 :: ((quoteBody s ++ [0x22]) ++ rest) from rfl,
        skipWs_cons_not_ws _ (by decide)]
      rw [show (quoteBody s ++ [0x22]) ++ rest = quoteBody s ++ 0x22 :: rest by
        simp [List.append_assoc]]
      simp only [show ((0x22 : Nat) == 0x7B) = false from rfl,
        show ((0x22 : Nat) == 0x5B) = false from rfl,
        show ((0x22 : Nat) == 0x22) = true from rfl, Bool.false_eq_true, if_false, if_true,
        parseStr_quoteBody s rest]
    | arr xs =>
      cases xs with
      | nil =>
        obtain ⟨f', rfl⟩ : ∃ f', f = f' + 1 := ⟨f - 1, by simp [fsize, felems] at hfuel; omega⟩
        rfl
      | cons x xs' =>
        have hfe : 2 + felems (x :: xs') ≤ f + 1 := by simpa [fsize] using hfuel
        have hne : 2 + felems (x :: xs') ≤ n := by simpa [fsize] using hn
        obtain ⟨f', rfl⟩ : ∃ f', f = f' + 1 := ⟨f - 1, by omega⟩
        have hwfe : wfElems (x :: xs') = true := by simpa [wfJson] using hwf
        rw [show printVal gap ind (JsonValue.arr (x :: xs')) ++ rest =
            0x5B :: ((gapLead gap (ind + gap) ++ printVal gap (ind + gap) x ++
              printRest gap (ind + gap) xs' ++ gapClose gap ind ++ [0x5D]) ++ rest)
            from rfl, parseVal_bracket]
        rw [show (gapLead gap (ind + gap) ++ printVal gap (ind + gap) x ++
            printRest gap (ind + gap) xs' ++ gapClose gap ind ++ [0x5D]) ++ rest =
            gapLead gap (ind + gap) ++ (printVal gap (ind + gap) x ++
              (printRest gap (ind + gap) xs' ++ (gapClose gap ind ++ 0x5D :: rest))) by
          simp [List.append_assoc]]
        simp only [parseArr]
        obtain ⟨u, t, hpv, hunw, hune⟩ := printVal_head gap (ind + gap) x
          (by simp only [wfElems, Bool.and_eq_true] at hwfe; exact hwfe.1)
        have hskip : skipWs (gapLead gap (ind + gap) ++ (printVal gap (ind + gap) x ++
            (printRest gap (ind + gap) xs' ++ (gapClose gap ind ++ 0x5D :: rest)))) =
            u :: (t ++ (printRest gap (ind + gap) xs' ++ (gapClose gap ind ++ 0x5D :: rest))) := by
          rw [skipWs_append_ws _ _ (gapLead_ws gap (ind + gap)), hpv, List.cons_append,
            skipWs_cons_not_ws _ hunw]
        rw [hskip, if_neg (by rw [head_beq_false hune]; simp)]
        have hb := (ih (2 + felems (x :: xs') - 1) (by omega)).2.1 x xs' (by omega)
          gap (ind + gap) f' (gapLead gap (ind + gap)) (gapClose gap ind) rest
          (gapLead_ws gap (ind + gap)) (gapClose_ws gap ind) hwfe (by omega)
        rw [hb]
    | obj fs =>
      cases fs with
      | nil =>
        obtain ⟨f', rfl⟩ : ∃ f', f = f' + 1 := ⟨f - 1, by simp [fsize, ffields] at hfuel; omega⟩
        rfl
      | cons kv fs' =>
        obtain ⟨k, v0⟩ := kv
        have hfe : 2 + ffields ((k, v0) :: fs') ≤ f + 1 := by simpa [fsize] using hfuel
        have hne : 2 + ffields ((k, v0) :: fs') ≤ n := by simpa [fsize] using hn
        obtain ⟨f', rfl⟩ : ∃ f', f = f' + 1 := ⟨f - 1, by omega⟩
        have hwff : wfFields ((k, v0) :: fs') = true := by
          simp only [wfJson, Bool.and_eq_true] at hwf
          exact hwf.2
        rw [show printVal gap ind (JsonValue.obj ((k, v0) :: fs')) ++ rest =
            0x7B :: ((gapLead gap (ind + gap) ++
              (quoteStr k ++ 0x3A :: ((if (gap == 0) = true then [] else [0x20]) ++
                printVal gap (ind + gap) v0)) ++
              printFields gap (ind + gap) fs' ++ gapClose gap ind ++ [0x7D]) ++ rest)
            from rfl, parseVal_brace]
        rw [show (gapLead gap (ind + gap) ++
            (quoteStr k ++ 0x3A :: ((if (gap == 0) = true then [] else [0x20]) ++
              printVal gap (ind + gap) v0)) ++
            printFields gap (ind + gap) fs' ++ gapClose gap ind ++ [0x7D]) ++ rest =
            gapLead gap (ind + gap) ++ (quoteStr k ++ 0x3A ::
              ((if (gap == 0) = true then [] else [0x20]) ++ (printVal gap (ind + gap) v0 ++
                (printFields gap (ind + gap) fs' ++ (gapClose gap ind ++ 0x7D :: rest))))) by
          simp [List.append_assoc]]
        simp only [parseObj]
        have hskip : skipWs (gapLead gap (ind + gap) ++ (quoteStr k ++ 0x3A ::
            ((if (gap == 0) = true then [] else [0x20]) ++ (printVal gap (ind + gap) v0 ++
              (printFields gap (ind + gap) fs' ++ (gapClose gap ind ++ 0x7D :: rest)))))) =
            0x22 :: ((quoteBody k ++ [0x22]) ++ 0x3A ::
              ((if (gap == 0) = true then [] else [0x20]) ++ (printVal gap (ind + gap) v0 ++
                (printFields gap (ind + gap) fs' ++ (gapClose gap ind ++ 0x7D :: rest))))) := by
          rw [skipWs_append_ws _ _ (gapLead_ws gap (ind + gap)),
            show quoteStr k = 0x22 :: (quoteBody k ++ [0x22]) from rfl, List.cons_append,
            skipWs_cons_not_ws _ (by decide)]
        rw [hskip, if_neg (by rw [head_beq_false (by decide)]; simp)]
        have hc := (ih (2 + ffields ((k, v0) :: fs') - 1) (by omega)).2.2 k v0 fs' (by omega)
          gap (ind + gap) f' (gapLead gap (ind + gap))
          ((if (gap == 0) = true then [] else [0x20])) (gapClose gap ind) rest
          (gapLead_ws gap (ind + gap)) (colonSpace_ws gap) (gapClose_ws gap ind) hwff (by omega)
        have hnd : noDupKeys ((k, v0) :: fs') = true := by
          simp only [wfJson, Bool.and_eq_true] at hwf
          exact hwf.1
        rw [hc]
        simp [buildObj_of_noDup _ hnd]
  · -- array elements
    intro x xs hn gap ind2 fuel ws1 ws2 rest hws1 hws2 hwf hfuel
    obtain ⟨f, rfl⟩ : ∃ f, fuel = f + 1 := ⟨fuel - 1, by simp [felems] at hfuel; omega⟩
    simp only [felems] at hn hfuel
    simp only [wfElems, Bool.and_eq_true] at hwf
    have hguardx : numGuard x (printRest gap ind2 xs ++ (ws2 ++ 0x5D :: rest)) = true := by
      cases xs with
      | nil => exact numGuard_ws_cons x ws2 hws2 0x5D (by decide) rest
      | cons y ys => exact numGuard_cons x 0x2C _ (by decide)
    have hA := (ih (fsize x) (by omega)).1 x le_rfl gap ind2 f ws1
      (printRest gap ind2 xs ++ (ws2 ++ 0x5D :: rest)) hws1 hwf.1 hguardx (by omega)
    simp only [parseElems]
    rw [hA]
    cases xs with
    | nil =>
      have hsk : skipWs (printRest gap ind2 [] ++ (ws2 ++ 0x5D :: rest)) = 0x5D :: rest := by
        rw [show printRest gap ind2 [] = [] from rfl, List.nil_append,
          skipWs_append_ws _ _ hws2, skipWs_cons_not_ws _ (by decide)]
      simp only [hsk]
      rfl
    | cons y ys =>
      have hsk : skipWs (printRest gap ind2 (y :: ys) ++ (ws2 ++ 0x5D :: rest)) =
          0x2C :: (gapLead gap ind2 ++ (printVal gap ind2 y ++ (printRest gap ind2 ys ++
            (ws2 ++ 0x5D :: rest)))) := by
        rw [show printRest gap ind2 (y :: ys) ++ (ws2 ++ 0x5D :: rest) =
            0x2C :: (gapLead gap ind2 ++ (printVal gap ind2 y ++ (printRest gap ind2 ys ++
              (ws2 ++ 0x5D :: rest)))) by simp [printRest, List.append_assoc],
          skipWs_cons_not_ws _ (by decide)]
      simp only [hsk]
      have hB := (ih (felems (y :: ys)) (by simp [felems] at hn ⊢; omega)).2.1 y ys le_rfl
        gap ind2 f (gapLead gap ind2) ws2 rest (gapLead_ws gap ind2) hws2 hwf.2
        (by simp [felems] at hfuel ⊢; omega)
      simp only [List.tail_cons, List.head?_cons]
      rw [if_pos (by rfl), hB]
  · -- object members
    intro k v fs hn gap ind2 fuel ws1 ws3 ws2 rest hws1 hws3 hws2 hwf hfuel
    obtain ⟨f, rfl⟩ : ∃ f, fuel = f + 1 := ⟨fuel - 1, by simp [ffields] at hfuel; omega⟩
    simp only [ffields] at hn hfuel
    simp only [wfFields, Bool.and_eq_true] at hwf
    simp only [parseFields]
    have hsk1 : skipWs (ws1 ++ (quoteStr k ++ 0x3A :: (ws3 ++ (printVal gap ind2 v ++
        (printFields gap ind2 fs ++ (ws2 ++ 0x7D :: rest)))))) =
        0x22 :: ((quoteBody k ++ [0x22]) ++ 0x3A :: (ws3 ++ (printVal gap ind2 v ++
          (printFields gap ind2 fs ++ (ws2 ++ 0x7D :: rest))))) := by
      rw [skipWs_append_ws _ _ hws1,
        show quoteStr k = 0x22 :: (quoteBody k ++ [0x22]) from rfl, List.cons_append,
        skipWs_cons_not_ws _ (by decide)]
    rw [hsk1]
    simp only [List.head?_cons, List.tail_cons]
    rw [if_pos (by rfl)]
    rw [show (quoteBody k ++ [0x22]) ++ 0x3A :: (ws3 ++ (printVal gap ind2 v ++
        (printFields gap ind2 fs ++ (ws2 ++ 0x7D :: rest)))) =
        quoteBody k ++ 0x22 :: (0x3A :: (ws3 ++ (printVal gap ind2 v ++
          (printFields gap ind2 fs ++ (ws2 ++ 0x7D :: rest))))) by
      simp [List.append_assoc]]
    rw [parseStr_quoteBody]
    have hsk2 : skipWs (0x3A :: (ws3 ++ (printVal gap ind2 v ++
        (printFields gap ind2 fs ++ (ws2 ++ 0x7D :: rest))))) =
        0x3A :: (ws3 ++ (printVal gap ind2 v ++
          (printFields gap ind2 fs ++ (ws2 ++ 0x7D :: rest)))) :=
      skipWs_cons_not_ws _ (by decide)
    simp only [hsk2, List.head?_cons, List.tail_cons]
    rw [if_pos (by rfl)]
    have hguardv : numGuard v (printFields gap ind2 fs ++ (ws2 ++ 0x7D :: rest)) = true := by
      cases fs with
      | nil => exact numGuard_ws_cons v ws2 hws2 0x7D (by decide) rest
      | cons kv' fs' =>
        obtain ⟨k', v'⟩ := kv'
        exact numGuard_cons v 0x2C _ (by decide)
    have hA := (ih (fsize v) (by omega)).1 v le_rfl gap ind2 f ws3
      (printFields gap ind2 fs ++ (ws2 ++ 0x7D :: rest)) hws3 hwf.1 hguardv (by omega)
    rw [hA]
    cases fs with
    | nil =>
      have hsk : skipWs (printFields gap ind2 [] ++ (ws2 ++ 0x7D :: rest)) = 0x7D :: rest := by
        rw [show printFields gap ind2 [] = [] from rfl, List.nil_append,
          skipWs_append_ws _ _ hws2, skipWs_cons_not_ws _ (by decide)]
      simp only [hsk]
      rfl
    | cons kv' fs' =>
      obtain ⟨k', v'⟩ := kv'
      have hsk : skipWs (printFields gap ind2 ((k', v') :: fs') ++ (ws2 ++ 0x7D :: rest)) =
          0x2C :: (gapLead gap ind2 ++ (quoteStr k' ++ 0x3A :: (((if (gap == 0) = true then []
            else [0x20])) ++ (printVal gap ind2 v' ++ (printFields gap ind2 fs' ++
            (ws2 ++ 0x7D :: rest)))))) := by
        rw [show printFields gap ind2 ((k', v') :: fs') ++ (ws2 ++ 0x7D :: rest) =
            0x2C :: (gapLead gap ind2 ++ (quoteStr k' ++ 0x3A :: (((if (gap == 0) = true then []
              else [0x20])) ++ (printVal gap ind2 v' ++ (printFields gap ind2 fs' ++
              (ws2 ++ 0x7D :: rest)))))) by simp [printFields, List.append_assoc],
          skipWs_cons_not_ws _ (by decide)]
      simp only [hsk, List.head?_cons, List.tail_cons]
      rw [if_pos (by rfl)]
      have hC := (ih (ffields ((k', v') :: fs')) (by simp [ffields] at hn ⊢; omega)).2.2
        k' v' fs' le_rfl gap ind2 f (gapLead gap ind2)
        ((if (gap == 0) = true then [] else [0x20])) ws2 rest (gapLead_ws gap ind2)
        (colonSpace_ws gap) hws2 hwf.2 (by simp [ffields] at hfuel ⊢; omega)
      rw [hC]

/-- The fuel `jsonParse` allots (three per unit of input) covers the fuel
`parseVal` needs on printer output. -/
theorem fsize_le_three_len : ∀ n : Nat,
    (∀ v : JsonValue, fsize v ≤ n → wfJson v = true → ∀ gap ind : Nat,
      fsize v ≤ 3 * (printVal gap ind v).length)
    ∧ (∀ xs : List JsonValue, felems xs ≤ n → wfElems xs = true → ∀ gap ind2 : Nat,
      felems xs ≤ 3 * (printRest gap ind2 xs).length)
    ∧ (∀ fs : List (List Nat × JsonValue), ffields fs ≤ n → wfFields fs = true →
      ∀ gap ind2 : Nat, ffields fs ≤ 3 * (printFields gap ind2 fs).length) := by
  intro n
  induction n using Nat.strong_induction_on with
  | _ n ih =>
  refine ⟨?_, ?_, ?_⟩
  · intro v hn hwf gap ind
    cases v with
    | null => simp [fsize, printVal]
    | bool b => cases b <;> simp [fsize, printVal]
    | num lit =>
      obtain ⟨u0, lit', rfl, _⟩ := wf_num_head hwf
      simp [fsize, printVal]
      omega
    | str s => simp [fsize, printVal, quoteStr]; omega
    | arr xs =>
      cases xs with
      | nil => simp [fsize, felems, printVal]
      | cons x xs' =>
        have hwfe : wfElems (x :: xs') = true := by simpa [wfJson] using hwf
        simp only [wfElems, Bool.and_eq_true] at hwfe
        have hx := (ih (fsize (JsonValue.arr (x :: xs')) - 1)
          (by have := fsize_pos (JsonValue.arr (x :: xs')); omega)).1 x
          (by simp [fsize, felems] at hn ⊢; omega) hwfe.1 gap (ind + gap)
        have hxs := (ih (fsize (JsonValue.arr (x :: xs')) - 1)
          (by have := fsize_pos (JsonValue.arr (x :: xs')); omega)).2.1 xs'
          (by simp [fsize, felems] at hn ⊢; omega) hwfe.2 gap (ind + gap)
        simp only [fsize, felems] at hx hxs ⊢
        simp only [printVal, List.length_cons, List.length_append]
        omega
    | obj fs =>
      cases fs with
      | nil => simp [fsize, ffields, printVal]
      | cons kv fs' =>
        obtain ⟨k, v0⟩ := kv
        have hnd : wfFields ((k, v0) :: fs') = true := by
          simp only [wfJson, Bool.and_eq_true] at hwf
          exact hwf.2
        simp only [wfFields, Bool.and_eq_true] at hnd
        have hv := (ih (fsize (JsonValue.obj ((k, v0) :: fs')) - 1)
          (by have := fsize_pos (JsonValue.obj ((k, v0) :: fs')); omega)).1 v0
          (by simp [fsize, ffields] at hn ⊢; omega) hnd.1 gap (ind + gap)
        have hfs := (ih (fsize (JsonValue.obj ((k, v0) :: fs')) - 1)
          (by have := fsize_pos (JsonValue.obj ((k, v0) :: fs')); omega)).2.2 fs'
          (by simp [fsize, ffields] at hn ⊢; omega) hnd.2 gap (ind + gap)
        simp only [fsize, ffields] at hv hfs ⊢
        simp only [printVal, List.length_cons, List.length_append, quoteStr]
        omega
  · intro xs hn hwfe gap ind2
    cases xs with
    | nil => simp [felems, printRest]
    | cons y ys =>
      simp only [wfElems, Bool.and_eq_true] at hwfe
      have hy := (ih (felems (y :: ys) - 1) ?hm).1 y (by simp [felems]; omega) hwfe.1 gap ind2
      case hm => simp [felems] at hn ⊢; omega
      have hys := (ih (felems (y :: ys) - 1) ?hm2).2.1 ys (by simp [felems]; omega) hwfe.2
        gap ind2
      case hm2 => simp [felems] at hn ⊢; omega
      simp only [felems] at hy hys ⊢
      simp only [printRest, List.length_cons, List.length_append]
      omega
  · intro fs hn hwff gap ind2
    cases fs with
    | nil => simp [ffields, printFields]
    | cons kv fs' =>
      obtain ⟨k, v0⟩ := kv
      simp only [wfFields, Bool.and_eq_true] at hwff
      have hv := (ih (ffields ((k, v0) :: fs') - 1) ?hm3).1 v0 (by simp [ffields]; omega)
        hwff.1 gap ind2
      case hm3 => simp [ffields] at hn ⊢; omega
      have hfs := (ih (ffields ((k, v0) :: fs') - 1) ?hm4).2.2 fs' (by simp [ffields]; omega)
        hwff.2 gap ind2
      case hm4 => simp [ffields] at hn ⊢; omega
      simp only [ffields] at hv hfs ⊢
      simp only [printFields, List.length_cons, List.length_append, quoteStr]
      omega

/-- `JSON.parse` inverts `JSON.stringify` on well-formed values, whatever
the space argument. -/
theorem jsonParse_stringify (v : JsonValue) (hwf : wfJson v = true) (space : Nat) :
    jsonParse (jsonStringify v space) = some v := by
  unfold jsonParse jsonStringify
  have hbound := (fsize_le_three_len (fsize v)).1 v le_rfl hwf (min space 10) 0
  have hrt := (roundTrip (fsize v)).1 v le_rfl (min space 10) 0
    (3 * (printVal (min space 10) 0 v).length + 3) [] []
    (by simp) hwf (by cases v <;> rfl) (by omega)
  simp only [List.nil_append, List.append_nil] at hrt
  rw [hrt]
  rfl

/-- Everything `jsonParse` returns is well-formed. -/
theorem jsonParse_wf (s : List Nat) (v : JsonValue) (h : jsonParse s = some v) :
    wfJson v = true := by
  unfold jsonParse at h
  cases hp : parseVal (3 * s.length + 3) s with
  | none => rw [hp] at h; exact absurd h (by simp)
  | some p =>
    obtain ⟨v0, r⟩ := p
    simp only [hp] at h
    by_cases hr : (skipWs r).isEmpty = true
    · rw [if_pos hr] at h
      cases h
      exact (parse_wf _).1 _ _ _ hp
    · rw [if_neg hr] at h
      exact absurd h (by simp)

/-- C8: policyFormatter is idempotent: for every code-unit string s that is
valid JSON (i.e. on which the formatter succeeds) and every tab size t,
formatting the formatter's output again returns that same output, and the
output is the JSON serialization of the parsed input indented by t. -/
theorem policyFormatter_idempotent (s : List Nat) (t : Nat) (out : List Nat)
    (h : policyFormatter s t = some out) :
    policyFormatter out t = some out
    ∧ ∃ v : JsonValue, jsonParse s = some v ∧ out = jsonStringify v t := by
  unfold policyFormatter at h ⊢
  cases hp : jsonParse s with
  | none => rw [hp] at h; exact absurd h (by simp)
  | some v =>
    rw [hp] at h
    have hout : out = jsonStringify v t := by simpa using h.symm
    have hwf := jsonParse_wf s v hp
    subst hout
    refine ⟨?_, v, rfl, rfl⟩
    rw [jsonParse_stringify v hwf t]
    rfl

/-- Witness for C8: formatting the three-unit text for the array holding the
number one at tab size two prints it across three lines, and that printed form
is a fixed point of the formatter. -/
theorem policyFormatter_idempotent_witness :
    policyFormatter [0x5B, 0x31, 0x5D] 2
        = some [0x5B, 0x0A, 0x20, 0x20, 0x31, 0x0A, 0x5D]
    ∧ (policyFormatter [0x5B, 0x0A, 0x20, 0x20, 0x31, 0x0A, 0x5D] 2
        = some [0x5B, 0x0A, 0x20, 0x20, 0x31, 0x0A, 0x5D]
      ∧ ∃ v : JsonValue, jsonParse [0x5B, 0x31, 0x5D] = some v
        ∧ [0x5B, 0x0A, 0x20, 0x20, 0x31, 0x0A, 0x5D] = jsonStringify v 2) :=
  ⟨by rfl, policyFormatter_idempotent [0x5B, 0x31, 0x5D] 2
    [0x5B, 0x0A, 0x20, 0x20, 0x31, 0x0A, 0x5D] (by rfl)⟩

end AwsToolkit
